import Mathlib

/-!
# Verification of the writer-tool content synchronization and caching engine

Shallow embedding of `src/writer_tool.py` (the `Post` data model, the
embedding/search pipeline `find_similar_posts`, and the sync engine
`get_all_content`) together with proofs and refutations of the frozen
claims about the specification.

Modelling conventions:
* Python strings are Lean `String`s; Python slicing `s[:n]` is `String.take n`
  (both operate on unicode code points).
* `datetime.now()` instants and `timedelta` durations are rationals
  (minutes); the only operations the source performs on them are
  subtraction and order comparison.
* External collaborators are parameters: the MD5 digest
  (`hashlib.md5(...).hexdigest()`) is an arbitrary function
  `digest : String → String`; the sentence-transformer model
  (`model.encode`) is an arbitrary function `embed : String → List ℚ`.
* The `diskcache.Cache` stores are total functions from a structured key
  type to an optional stored value.  The source builds its keys with the
  f-strings `f"post:{post_id}"`, `f"{cache_key}:post_ids"` and
  `f"{cache_key}:last_fetch_time"`; since post ids are 32-character hex
  digests these three formats never collide, and we represent them by the
  three constructors of `CKey`.
* Exceptions that the source catches are represented with `Except`;
  an `Except.error` value of an adapter stands for "the adapter call
  raised into the `try` block of `get_all_content`".
-/

/-- A Python `datetime` value, by its components: wall-clock fields plus the
UTC offset of its `tzinfo` in minutes (`none` for a naive datetime).
`datetime.isoformat` renders exactly these components and
`datetime.fromisoformat` recovers exactly these components (the Python
documentation guarantees `datetime.fromisoformat(d.isoformat()) == d`), so a
serialized date is modelled by its information content. -/
structure PyDateTime where
  year : ℕ
  month : ℕ
  day : ℕ
  hour : ℕ
  minute : ℕ
  second : ℕ
  microsecond : ℕ
  utcOffsetMinutes : Option ℤ
deriving DecidableEq, Repr

/-- `content.split()`: Python's whitespace split, which splits on runs of
whitespace and drops empty fragments. -/
def pySplitWhitespace (s : String) : List String :=
  (s.split (fun c => c.isWhitespace)).filter (fun t => t ≠ "")

/-- The `Post` class of `writer_tool.py` (lines 44-56): a normalized article
with a derived word count and a derived content-addressed id. -/
structure Post where
  title : String
  url : String
  content : String
  date : Option PyDateTime
  subtitle : String
  word_count : ℕ
  platform : String
  platform_name : String
  id : String
deriving DecidableEq, Repr

/-- `Post.__init__` (lines 45-56): stores the given fields, computes
`word_count = len(content.split()) if content else 0`, and computes
`id = hashlib.md5(f"{url}:{title}".encode()).hexdigest()`.  The digest is an
external deterministic function, passed as `digest`. -/
def Post.make (digest : String → String) (title url content : String)
    (date : Option PyDateTime) (subtitle platform platform_name : String) :
    Post :=
  ⟨title, url, content, date, subtitle,
   if content = "" then 0 else (pySplitWhitespace content).length,
   platform, platform_name,
   digest (url ++ ":" ++ title)⟩

/-- The dictionary produced by `Post.to_dict` (lines 58-70).  The `date`
entry is the `isoformat` string when a date is present and `None` otherwise;
per the `PyDateTime` convention the string is modelled by its information
content — a faithful modelling, because the serialization round-trips: see
`fromIsoString_isoformat` at the end of this file, which renders the exact
`isoformat` string and proves parsing recovers every component, timezone
offset included. -/
structure PostDict where
  id : String
  title : String
  url : String
  content : String
  date : Option PyDateTime
  subtitle : String
  word_count : ℕ
  platform : String
  platform_name : String
deriving DecidableEq, Repr

/-- `Post.to_dict` (lines 58-70). -/
def Post.toDict (p : Post) : PostDict :=
  ⟨p.id, p.title, p.url, p.content, p.date, p.subtitle, p.word_count,
   p.platform, p.platform_name⟩

/-- `Post.from_dict` (lines 72-90): rebuild through the constructor (which
recomputes `word_count` and `id`), then set `date` when the serialized date
is truthy (a `datetime` is always truthy, `None` is falsy), and finally
overwrite `id` and `word_count` with the stored values. -/
def Post.fromDict (digest : String → String) (d : PostDict) : Post :=
  let p := Post.make digest d.title d.url d.content none d.subtitle
    d.platform d.platform_name
  let p := match d.date with
    | some dt => { p with date := some dt }
    | none => p
  { p with id := d.id, word_count := d.word_count }

/-- C6: for every `(url, title)` pair the id computed at construction equals
`digest (url ++ ":" ++ title)` — hence it is the same across repeated
computations — and it does not depend on the `content`, `date`, `subtitle`,
`platform` or `platform_name` arguments. -/
theorem post_id_depends_only_on_url_title (digest : String → String)
    (title url : String)
    (c₁ c₂ : String) (d₁ d₂ : Option PyDateTime) (s₁ s₂ p₁ p₂ n₁ n₂ : String) :
    (Post.make digest title url c₁ d₁ s₁ p₁ n₁).id
      = digest (url ++ ":" ++ title)
    ∧ (Post.make digest title url c₁ d₁ s₁ p₁ n₁).id
      = (Post.make digest title url c₂ d₂ s₂ p₂ n₂).id := by
  constructor <;> rfl

/-- C10: the serialization round-trip used for every store write and read
reproduces the post exactly: `from_dict (to_dict p) = p`, every field
included (`date` with its timezone offset when present, `none` when
absent). -/
theorem fromDict_toDict (digest : String → String) (p : Post) :
    Post.fromDict digest (Post.toDict p) = p := by
  cases p with
  | mk title url content date subtitle word_count platform platform_name id =>
    cases date <;> rfl

/-! ## Embeddings (`calculate_embedding`, lines 228-236) -/

/-- An embedding vector.  The sentence-transformer returns a fixed-length
float vector; floats are idealized as rationals. -/
abbrev Vec := List ℚ

/-- `calculate_embedding` (lines 228-236): truncate the text to 10000
characters, then call the (external, deterministic) model. -/
def calculateEmbedding (embed : String → Vec) (text : String) : Vec :=
  embed (if text.length > 10000 then text.take 10000 else text)

/-- The embedding text and value stored for a post, as built at both call
sites (`get_all_content` line 370 and `find_similar_posts` line 260):
`calculate_embedding(post.title + " " + post.content[:5000])`. -/
def postEmbedding (embed : String → Vec) (p : Post) : Vec :=
  calculateEmbedding embed (p.title ++ " " ++ p.content.take 5000)

/-- C3: the embedding value stored for an article is a function of its
title and the first 5000 characters of its content alone: any two posts
(or two versions of one post) that agree on `title` and on
`content.take 5000` receive identical embedding values — in particular,
changing the content at or beyond position 5000 leaves the embedding
unchanged.  Holds for every embedding model `embed`. -/
theorem postEmbedding_depends_only_on_title_and_first5000
    (embed : String → Vec) (p q : Post)
    (htitle : p.title = q.title)
    (hcontent : p.content.take 5000 = q.content.take 5000) :
    postEmbedding embed p = postEmbedding embed q := by
  unfold postEmbedding calculateEmbedding
  rw [htitle, hcontent]

/-- Concrete instance for the truncation property: two posts whose contents
agree on the first 5000 characters and then diverge (one ends in `'b'`, the
other in `'c'`) receive the same stored embedding value. -/
theorem postEmbedding_truncation_witness :
    (String.mk (List.replicate 5000 'a' ++ ['b'])).take 5000
        = (String.mk (List.replicate 5000 'a' ++ ['c'])).take 5000
    ∧ postEmbedding (fun s => [(s.length : ℚ)])
        ⟨"t", "u", String.mk (List.replicate 5000 'a' ++ ['b']), none, "", 0,
          "", "", "i"⟩
      = postEmbedding (fun s => [(s.length : ℚ)])
        ⟨"t", "u", String.mk (List.replicate 5000 'a' ++ ['c']), none, "", 0,
          "", "", "i"⟩ := by
  have h : ∀ c : Char, (String.mk (List.replicate 5000 'a' ++ [c])).take 5000
      = String.mk (List.replicate 5000 'a') := by
    intro c
    rw [String.take_eq]
    exact congrArg String.mk (List.take_left' (List.length_replicate 5000 'a'))
  refine ⟨(h 'b').trans (h 'c').symm, ?_⟩
  exact postEmbedding_depends_only_on_title_and_first5000 _ _ _ rfl
    ((h 'b').trans (h 'c').symm)

/-! ## Cosine similarity (`find_similar_posts` line 266)

The score is `np.dot(q, e) / (np.linalg.norm(q) * np.linalg.norm(e))` on
float vectors.  With entries idealized as rationals the norms are square
roots, which are irrational in general, so a computed score is represented
symbolically: `SimVal.fin num denSq` stands for the real number
`num / Real.sqrt denSq` (with `denSq > 0` in every produced value), and the
IEEE results of dividing by a zero denominator are the `nan` and `inf`
constructors (`0/0 = NaN`, `x/0 = ±Inf` for `x ≠ 0`; the sign of the
infinity is irrelevant because the `inf` case is proved unreachable in
`cosineSim_denominator_zero`). -/

/-- `np.dot` on two 1-D vectors: the sum of pointwise products. -/
def dotQ (a b : Vec) : ℚ := (List.zipWith (fun x y => x * y) a b).sum

/-- The square of `np.linalg.norm a`: the norm itself is `Real.sqrt` of
this. -/
def normSq (a : Vec) : ℚ := dotQ a a

/-- A float computed by the similarity formula, represented exactly. -/
inductive SimVal where
  | nan : SimVal
  | inf : SimVal
  | fin (num denSq : ℚ) : SimVal
deriving DecidableEq, Repr

/-- Whether a `SimVal` represents the real number `0`. -/
def SimVal.isZero : SimVal → Bool
  | .fin num _ => num == 0
  | _ => false

/-- Line 266 of `find_similar_posts`:
`np.dot(query_embedding, embedding) / (np.linalg.norm(query_embedding) * np.linalg.norm(embedding))`,
with the division-by-zero cases resolved the way IEEE 754 (and hence numpy)
resolves them — no exception is raised, `0/0` is NaN, and a nonzero
numerator over zero gives an infinity. -/
def cosineSim (q e : Vec) : SimVal :=
  let num := dotQ q e
  let denSq := normSq q * normSq e
  if denSq = 0 then (if num = 0 then .nan else .inf) else .fin num denSq

/-- `np.dot` of anything with the empty vector is `0`. -/
theorem dotQ_nil_right (a : Vec) : dotQ a [] = 0 := by cases a <;> rfl

/-- A sum of squares is non-negative. -/
theorem dotQ_self_nonneg : ∀ a : Vec, 0 ≤ dotQ a a
  | [] => le_refl 0
  | x :: xs => by
    have h : dotQ (x :: xs) (x :: xs) = x * x + dotQ xs xs := rfl
    rw [h]
    exact add_nonneg (mul_self_nonneg x) (dotQ_self_nonneg xs)

/-- Over exact arithmetic a vector has zero norm exactly when all its
entries are zero. -/
theorem forall_zero_of_normSq_eq_zero :
    ∀ a : Vec, normSq a = 0 → ∀ x ∈ a, x = 0
  | [], _, x, hx => absurd hx (List.not_mem_nil x)
  | y :: ys, h, x, hx => by
    have hsum : y * y + dotQ ys ys = 0 := h
    have hy : y * y = 0 ∧ dotQ ys ys = 0 :=
      (add_eq_zero_iff_of_nonneg (mul_self_nonneg y)
        (dotQ_self_nonneg ys)).mp hsum
    rcases List.mem_cons.mp hx with rfl | hx
    · exact mul_self_eq_zero.mp hy.1
    · exact forall_zero_of_normSq_eq_zero ys hy.2 x hx

/-- A dot product with an all-zero left factor is `0`. -/
theorem dotQ_zero_of_left_zero :
    ∀ a b : Vec, (∀ x ∈ a, x = 0) → dotQ a b = 0
  | [], b, _ => by cases b <;> rfl
  | _ :: _, [], _ => rfl
  | x :: xs, y :: ys, h => by
    have hstep : dotQ (x :: xs) (y :: ys) = x * y + dotQ xs ys := rfl
    rw [hstep, h x (List.mem_cons_self x xs), zero_mul, zero_add]
    exact dotQ_zero_of_left_zero xs ys (fun z hz => h z (List.mem_cons_of_mem _ hz))

/-- `np.dot` on 1-D vectors is symmetric. -/
theorem dotQ_comm : ∀ a b : Vec, dotQ a b = dotQ b a
  | [], b => by cases b <;> rfl
  | _ :: _, [] => rfl
  | x :: xs, y :: ys => by
    have h1 : dotQ (x :: xs) (y :: ys) = x * y + dotQ xs ys := rfl
    have h2 : dotQ (y :: ys) (x :: xs) = y * x + dotQ ys xs := rfl
    rw [h1, h2, mul_comm, dotQ_comm xs ys]

/-- When the denominator of the similarity formula vanishes, so does the
numerator: the division line 266 performs is then `0/0`, i.e. NaN — the
`inf` branch of `cosineSim` is unreachable. -/
theorem dotQ_eq_zero_of_denominator_zero (q e : Vec)
    (h : normSq q * normSq e = 0) : dotQ q e = 0 := by
  rcases mul_eq_zero.mp h with h0 | h0
  · exact dotQ_zero_of_left_zero q e (forall_zero_of_normSq_eq_zero q h0)
  · rw [dotQ_comm]
    exact dotQ_zero_of_left_zero e q (forall_zero_of_normSq_eq_zero e h0)

/-- C5 (amended): when either vector of the similarity computation has zero
norm, the score the code computes is NaN (numpy evaluates `0/0` without
raising), not `0`; for all other pairs the score is exactly
`dot(q, e) / (norm q * norm e)` (represented as `fin num denSq` with
`denSq` the square of the denominator). -/
theorem cosineSim_zero_norm_is_nan (q e : Vec) :
    ((normSq q = 0 ∨ normSq e = 0) → cosineSim q e = SimVal.nan)
    ∧ (normSq q ≠ 0 → normSq e ≠ 0 →
        cosineSim q e = SimVal.fin (dotQ q e) (normSq q * normSq e)) := by
  constructor
  · intro h
    have hden : normSq q * normSq e = 0 := by
      rcases h with h0 | h0 <;> simp [h0]
    have hnum := dotQ_eq_zero_of_denominator_zero q e hden
    simp [cosineSim, hden, hnum]
  · intro h1 h2
    simp [cosineSim, mul_ne_zero h1 h2]

/-- C5 counterexample: at query embedding `[0]` (zero norm) and article
embedding `[1]`, the score line 266 computes is NaN, not the `0` the claim
specifies. -/
theorem cosineSim_zero_norm_counterexample :
    normSq [(0 : ℚ)] = 0
    ∧ cosineSim [(0 : ℚ)] [(1 : ℚ)] = SimVal.nan
    ∧ (cosineSim [(0 : ℚ)] [(1 : ℚ)]).isZero = false := by
  norm_num [cosineSim, normSq, dotQ, SimVal.isZero]

/-- Concrete instances of both branches of `cosineSim_zero_norm_is_nan`. -/
theorem cosineSim_zero_norm_is_nan_witness :
    cosineSim [(0 : ℚ)] [(1 : ℚ)] = SimVal.nan
    ∧ cosineSim [(1 : ℚ)] [(2 : ℚ)]
        = SimVal.fin (dotQ [1] [2]) (normSq [1] * normSq [2]) := by
  constructor
  · exact (cosineSim_zero_norm_is_nan [0] [1]).1 (Or.inl (by norm_num [normSq, dotQ]))
  · exact (cosineSim_zero_norm_is_nan [1] [2]).2 (by norm_num [normSq, dotQ])
      (by norm_num [normSq, dotQ])

/-! ## Configuration (`load_config`, lines 93-115)

`load_config` reads `config.json` (file I/O, external); the engine sees one
structured document whose numeric knobs are read with
`config.get(key, default)`, so the model is the configuration after
defaulting.  A platform entry's `name` defaults to its `url`
(`platform.get("name", platform_url)`, line 293). -/

/-- One entry of `config["platforms"]`. -/
structure PlatformCfg where
  type : String
  url : String
  name : Option String
deriving DecidableEq, Repr

/-- The loaded configuration document. -/
structure Config where
  platforms : List PlatformCfg
  max_posts : ℕ
  cache_duration_minutes : ℚ
  similar_posts_count : ℤ

/-- `platform.get("name", platform_url)` (line 293). -/
def PlatformCfg.effName (p : PlatformCfg) : String := p.name.getD p.url

/-! ## Search (`find_similar_posts`, lines 239-272) -/

/-- The embeddings cache (`embeddings_cache`), keyed by post id. -/
abbrev EmbCache := String → Option Vec

/-- A write to the embeddings cache. -/
def EmbCache.set (m : EmbCache) (k : String) (v : Vec) : EmbCache :=
  fun k' => if k' = k then some v else m k'

/-- Python list slicing `l[:n]` for an `int` bound: a non-negative bound
takes the first `n` elements, a negative bound drops the last `-n`. -/
def pySliceTo (l : List α) (n : ℤ) : List α :=
  if 0 ≤ n then l.take n.toNat else l.take (l.length - (-n).toNat)

/-- The comparison `results.sort(key=lambda x: x[1], reverse=True)` sorts
by: `a` may come before `b` exactly when `a`'s score is at least `b`'s. -/
def scoreGe (a b : Post × ℚ) : Prop := b.2 ≤ a.2

instance : DecidableRel scoreGe :=
  fun a b => inferInstanceAs (Decidable (b.2 ≤ a.2))

instance : IsTotal (Post × ℚ) scoreGe := ⟨fun a b => le_total b.2 a.2⟩

instance : IsTrans (Post × ℚ) scoreGe := ⟨fun _ _ _ h1 h2 => h2.trans h1⟩

/-- `find_similar_posts` (lines 239-272).  The scoring expression of
line 266 is float cosine similarity; its exact value is irrational in
general, so the score assignment is abstracted as a function
`sim : Vec → Vec → ℚ` of the two embedding vectors (the zero-norm structure
of the formula itself is analyzed separately by `cosineSim`).  Python's
`list.sort` is stable, and with `reverse=True` it places higher keys first
while keeping equal keys in their original order; `List.insertionSort
scoreGe` has exactly this behavior (`sorted_insertionSort` and
`filter_insertionSort_scoreGe` below).  The function returns the updated
embeddings cache alongside the ranked list, since the loop writes cache
misses back (line 261). -/
def simStep (embed : String → Vec) (sim : Vec → Vec → ℚ)
    (query_embedding : Vec) (acc : EmbCache × List (Post × ℚ))
    (post : Post) : EmbCache × List (Post × ℚ) :=
  match acc.1 post.id with
  | some embedding =>
      (acc.1, acc.2 ++ [(post, sim query_embedding embedding)])
  | none =>
      let embedding := postEmbedding embed post
      (acc.1.set post.id embedding,
       acc.2 ++ [(post, sim query_embedding embedding)])

/-- `find_similar_posts`, assembled: empty-corpus early return (line 241),
the `top_n` override from the configuration (lines 245-247), the scoring
loop (`simStep`, one iteration per post in order), the stable descending
sort (line 270) and the final slice (line 272). -/
def findSimilarPosts (cfg : Config) (embed : String → Vec)
    (sim : Vec → Vec → ℚ) (query : String) (all_posts : List Post)
    (top_n : ℤ) (emb0 : EmbCache) : EmbCache × List (Post × ℚ) :=
  if all_posts = [] then (emb0, [])
  else
    let custom_top_n := cfg.similar_posts_count
    let top_n := if 0 < custom_top_n then custom_top_n else top_n
    let query_embedding := calculateEmbedding embed query
    let res := all_posts.foldl (simStep embed sim query_embedding) (emb0, [])
    (res.1, pySliceTo (List.insertionSort scoreGe res.2) top_n)

/-- `pySliceTo` only ever takes a prefix. -/
theorem pySliceTo_sublist (l : List α) (n : ℤ) : List.Sublist (pySliceTo l n) l := by
  unfold pySliceTo
  split <;> exact List.take_sublist _ _

/-- Stability of `orderedInsert` under `scoreGe`: inserting an element `x`
passes only over elements with a strictly larger score, so the subsequence
of any fixed score value `c` is unchanged — except that when `x` itself has
score `c`, `x` lands at the front of its score class (every tied element was
inserted earlier from further right in the original list). -/
theorem filter_orderedInsert_scoreGe (x : Post × ℚ) (c : ℚ) :
    ∀ l : List (Post × ℚ),
      (List.orderedInsert scoreGe x l).filter (fun y => decide (y.2 = c))
        = if x.2 = c
          then x :: l.filter (fun y => decide (y.2 = c))
          else l.filter (fun y => decide (y.2 = c))
  | [] => by
    by_cases hx : x.2 = c <;> simp [List.orderedInsert, List.filter, hx]
  | y :: ys => by
    simp only [List.orderedInsert]
    split <;> rename_i hr
    · by_cases hx : x.2 = c <;> simp [List.filter, hx]
    · have hyc : x.2 < y.2 := lt_of_not_le hr
      have := filter_orderedInsert_scoreGe x c ys
      by_cases hx : x.2 = c
      · have hync : ¬ (y.2 = c) := by
          intro hyc2
          exact absurd (hyc2.trans hx.symm) (ne_of_gt hyc)
        simp [List.filter, hx, hync, this]
      · by_cases hy : y.2 = c <;> simp [List.filter, hx, hy, this]

/-- Stability of the sort of line 270: for every score value, the elements
holding that score appear in the sorted output in their original order. -/
theorem filter_insertionSort_scoreGe (c : ℚ) :
    ∀ l : List (Post × ℚ),
      (List.insertionSort scoreGe l).filter (fun y => decide (y.2 = c))
        = l.filter (fun y => decide (y.2 = c))
  | [] => rfl
  | x :: xs => by
    simp only [List.insertionSort, filter_orderedInsert_scoreGe,
      filter_insertionSort_scoreGe c xs]
    by_cases hx : x.2 = c <;> simp [List.filter, hx]

/-- The scoring loop only ever writes `postEmbedding` values: every cache
cell is either untouched or holds the stored embedding of a processed post
whose id is that cell's key. -/
theorem simStep_fold_cache (embed : String → Vec) (sim : Vec → Vec → ℚ)
    (qe : Vec) :
    ∀ (l : List Post) (emb : EmbCache) (acc : List (Post × ℚ)) (s : String),
      (l.foldl (simStep embed sim qe) (emb, acc)).1 s = emb s
      ∨ ∃ p, p ∈ l ∧ s = p.id
          ∧ (l.foldl (simStep embed sim qe) (emb, acc)).1 s
              = some (postEmbedding embed p)
  | [], _, _, _ => Or.inl rfl
  | p :: ps, emb, acc, s => by
    rcases hcase : emb p.id with _ | e
    · have hstep : List.foldl (simStep embed sim qe) (emb, acc) (p :: ps)
          = List.foldl (simStep embed sim qe)
              (EmbCache.set emb p.id (postEmbedding embed p),
               acc ++ [(p, sim qe (postEmbedding embed p))]) ps := by
        simp only [List.foldl, simStep, hcase]
      rw [hstep]
      rcases simStep_fold_cache embed sim qe ps _ _ s with h | ⟨q, hq, hs, hv⟩
      · by_cases hsp : s = p.id
        · right
          refine ⟨p, List.mem_cons_self p ps, hsp, ?_⟩
          rw [h]
          simp [EmbCache.set, hsp]
        · left
          rw [h]
          simp [EmbCache.set, hsp]
      · right
        exact ⟨q, List.mem_cons_of_mem p hq, hs, hv⟩
    · have hstep : List.foldl (simStep embed sim qe) (emb, acc) (p :: ps)
          = List.foldl (simStep embed sim qe)
              (emb, acc ++ [(p, sim qe e)]) ps := by
        simp only [List.foldl, simStep, hcase]
      rw [hstep]
      rcases simStep_fold_cache embed sim qe ps _ _ s with h | ⟨q, hq, hs, hv⟩
      · exact Or.inl h
      · exact Or.inr ⟨q, List.mem_cons_of_mem p hq, hs, hv⟩

/-- When every cached embedding agrees with the value the loop would compute
(`postEmbedding`), and equal post ids imply equal stored-embedding values,
the scoring loop appends exactly one entry per post, in corpus order, scored
against that post's stored embedding. -/
theorem simStep_fold_results (embed : String → Vec) (sim : Vec → Vec → ℚ)
    (qe : Vec) :
    ∀ (l : List Post) (emb : EmbCache) (acc : List (Post × ℚ)),
      (∀ p ∈ l, emb p.id = none ∨ emb p.id = some (postEmbedding embed p)) →
      (∀ p ∈ l, ∀ q ∈ l, p.id = q.id →
        postEmbedding embed p = postEmbedding embed q) →
      (l.foldl (simStep embed sim qe) (emb, acc)).2
        = acc ++ l.map (fun p => (p, sim qe (postEmbedding embed p)))
  | [], _, _, _, _ => by simp
  | p :: ps, emb, acc, H1, H2 => by
    rcases hcase : emb p.id with _ | e
    · have hstep : List.foldl (simStep embed sim qe) (emb, acc) (p :: ps)
          = List.foldl (simStep embed sim qe)
              (EmbCache.set emb p.id (postEmbedding embed p),
               acc ++ [(p, sim qe (postEmbedding embed p))]) ps := by
        simp only [List.foldl, simStep, hcase]
      have H1' : ∀ q ∈ ps,
          EmbCache.set emb p.id (postEmbedding embed p) q.id = none
          ∨ EmbCache.set emb p.id (postEmbedding embed p) q.id
              = some (postEmbedding embed q) := by
        intro q hq
        by_cases hqid : q.id = p.id
        · right
          have hpe : postEmbedding embed p = postEmbedding embed q :=
            H2 p (List.mem_cons_self p ps) q (List.mem_cons_of_mem p hq)
              hqid.symm
          simp [EmbCache.set, hqid, hpe]
        · simpa [EmbCache.set, hqid] using H1 q (List.mem_cons_of_mem p hq)
      have H2' : ∀ a ∈ ps, ∀ b ∈ ps, a.id = b.id →
          postEmbedding embed a = postEmbedding embed b :=
        fun a ha b hb =>
          H2 a (List.mem_cons_of_mem p ha) b (List.mem_cons_of_mem p hb)
      rw [hstep, simStep_fold_results embed sim qe ps _ _ H1' H2']
      simp
    · have he : e = postEmbedding embed p := by
        have h := H1 p (List.mem_cons_self p ps)
        rw [hcase] at h
        rcases h with h | h
        · exact absurd h (Option.some_ne_none e)
        · exact Option.some.inj h
      have hstep : List.foldl (simStep embed sim qe) (emb, acc) (p :: ps)
          = List.foldl (simStep embed sim qe)
              (emb, acc ++ [(p, sim qe e)]) ps := by
        simp only [List.foldl, simStep, hcase]
      have H1' : ∀ q ∈ ps, emb q.id = none
          ∨ emb q.id = some (postEmbedding embed q) :=
        fun q hq => H1 q (List.mem_cons_of_mem p hq)
      have H2' : ∀ a ∈ ps, ∀ b ∈ ps, a.id = b.id →
          postEmbedding embed a = postEmbedding embed b :=
        fun a ha b hb =>
          H2 a (List.mem_cons_of_mem p ha) b (List.mem_cons_of_mem p hb)
      rw [hstep, simStep_fold_results embed sim qe ps _ _ H1' H2', he]
      simp

/-- C4: under a consistent cache (every pre-existing entry for a corpus post
equals its stored-embedding value, and equal ids carry equal embedding
texts), `find_similar_posts` returns exactly the first `topN` elements (the
configured `similar_posts_count` when positive, else the caller's `top_n`)
of the scored corpus sorted by non-increasing score; the scores down the
returned list are non-increasing; tied scores keep the original iteration
order (the sort leaves every score class's subsequence unchanged); and a
repeated call — through the cache the first call filled — returns the same
list.  Holds for every embedding model and every score function. -/
theorem findSimilarPosts_ranking (cfg : Config) (embed : String → Vec)
    (sim : Vec → Vec → ℚ) (query : String) (all_posts : List Post)
    (top_n : ℤ) (emb0 : EmbCache)
    (H1 : ∀ p ∈ all_posts,
      emb0 p.id = none ∨ emb0 p.id = some (postEmbedding embed p))
    (H2 : ∀ p ∈ all_posts, ∀ q ∈ all_posts, p.id = q.id →
      postEmbedding embed p = postEmbedding embed q) :
    (findSimilarPosts cfg embed sim query all_posts top_n emb0).2
      = pySliceTo
          (List.insertionSort scoreGe (all_posts.map (fun p =>
            (p, sim (calculateEmbedding embed query) (postEmbedding embed p)))))
          (if 0 < cfg.similar_posts_count then cfg.similar_posts_count
            else top_n)
    ∧ List.Pairwise scoreGe
        (findSimilarPosts cfg embed sim query all_posts top_n emb0).2
    ∧ (∀ c : ℚ,
        (List.insertionSort scoreGe (all_posts.map (fun p =>
            (p, sim (calculateEmbedding embed query)
              (postEmbedding embed p))))).filter (fun y => decide (y.2 = c))
          = (all_posts.map (fun p =>
              (p, sim (calculateEmbedding embed query)
                (postEmbedding embed p)))).filter (fun y => decide (y.2 = c)))
    ∧ (findSimilarPosts cfg embed sim query all_posts top_n
        (findSimilarPosts cfg embed sim query all_posts top_n emb0).1).2
      = (findSimilarPosts cfg embed sim query all_posts top_n emb0).2 := by
  set qe := calculateEmbedding embed query with hqe
  set scored := all_posts.map (fun p => (p, sim qe (postEmbedding embed p)))
    with hscored
  have key : ∀ emb : EmbCache,
      (∀ p ∈ all_posts,
        emb p.id = none ∨ emb p.id = some (postEmbedding embed p)) →
      (findSimilarPosts cfg embed sim query all_posts top_n emb).2
        = pySliceTo (List.insertionSort scoreGe scored)
            (if 0 < cfg.similar_posts_count then cfg.similar_posts_count
              else top_n) := by
    intro emb hemb
    by_cases hnil : all_posts = []
    · subst hnil
      simp [findSimilarPosts, pySliceTo, hscored]
    · have hres := simStep_fold_results embed sim qe all_posts emb [] hemb H2
      simp only [findSimilarPosts, if_neg hnil]
      rw [hres]
      simp [hscored]
  have hsorted : List.Pairwise scoreGe (List.insertionSort scoreGe scored) :=
    List.sorted_insertionSort scoreGe scored
  have hcache : ∀ p ∈ all_posts,
      (findSimilarPosts cfg embed sim query all_posts top_n emb0).1 p.id = none
      ∨ (findSimilarPosts cfg embed sim query all_posts top_n emb0).1 p.id
          = some (postEmbedding embed p) := by
    intro p hp
    by_cases hnil : all_posts = []
    · subst hnil
      exact absurd hp (List.not_mem_nil p)
    · have hfst : (findSimilarPosts cfg embed sim query all_posts top_n emb0).1
          = (all_posts.foldl (simStep embed sim qe) (emb0, [])).1 := by
        simp [findSimilarPosts, if_neg hnil]
      rw [hfst]
      rcases simStep_fold_cache embed sim qe all_posts emb0 [] p.id with
        h | ⟨q, hq, hs, hv⟩
      · rw [h]
        exact H1 p hp
      · right
        rw [hv]
        exact congrArg some (H2 q hq p hp hs.symm)
  refine ⟨key emb0 H1, ?_, fun c => filter_insertionSort_scoreGe c scored, ?_⟩
  · rw [key emb0 H1]
    exact List.Pairwise.sublist (pySliceTo_sublist _ _) hsorted
  · rw [key _ hcache, key emb0 H1]

/-- Sample posts for concrete instances of the search claims. -/
def samplePostA : Post :=
  ⟨"ta", "ua", "ca", none, "", 1, "substack", "A", "ida"⟩

def samplePostB : Post :=
  ⟨"tb", "ub", "cb", none, "", 1, "substack", "B", "idb"⟩

set_option maxRecDepth 4000 in
/-- Concrete instance of the ranking theorem: on a two-post corpus with an
empty cache the returned list is sorted by non-increasing score. -/
theorem findSimilarPosts_ranking_witness :
    List.Pairwise scoreGe
      (findSimilarPosts ⟨[], 100, 10080, 10⟩ (fun _ => []) (fun _ _ => 0) "q"
        [samplePostA, samplePostB] 10 (fun _ => none)).2 :=
  (findSimilarPosts_ranking ⟨[], 100, 10080, 10⟩ (fun _ => [])
    (fun _ _ => 0) "q" [samplePostA, samplePostB] 10 (fun _ => none)
    (fun _ _ => Or.inl rfl)
    (fun _ _ _ _ _ => by simp only [postEmbedding, calculateEmbedding])).2.1

/-- A slice with a non-negative bound has at most that many elements. -/
theorem pySliceTo_length_le (l : List α) (n : ℤ) (h : 0 ≤ n) :
    ((pySliceTo l n).length : ℤ) ≤ n := by
  unfold pySliceTo
  rw [if_pos h]
  calc ((l.take n.toNat).length : ℤ)
      ≤ (n.toNat : ℤ) := by exact_mod_cast List.length_take_le n.toNat l
    _ = n := Int.toNat_of_nonneg h

/-- C9 (amended): the length of the list `find_similar_posts` returns is
bounded by the configured `similar_posts_count` whenever that setting is
positive — regardless of the `top_n` argument the caller passed; the
caller's `top_n` bounds the result only when `similar_posts_count ≤ 0`
(and `top_n` is non-negative). -/
theorem findSimilarPosts_length_bound (cfg : Config) (embed : String → Vec)
    (sim : Vec → Vec → ℚ) (query : String) (all_posts : List Post)
    (top_n : ℤ) (emb0 : EmbCache) :
    (0 < cfg.similar_posts_count →
      ((findSimilarPosts cfg embed sim query all_posts top_n emb0).2.length : ℤ)
        ≤ cfg.similar_posts_count)
    ∧ (cfg.similar_posts_count ≤ 0 → 0 ≤ top_n →
      ((findSimilarPosts cfg embed sim query all_posts top_n emb0).2.length : ℤ)
        ≤ top_n) := by
  by_cases hnil : all_posts = []
  · subst hnil
    constructor
    · intro hc
      simp only [findSimilarPosts, if_pos rfl, List.length_nil,
        Int.natCast_zero]
      exact le_of_lt hc
    · intro _ htop
      simp only [findSimilarPosts, if_pos rfl, List.length_nil,
        Int.natCast_zero]
      exact htop
  · constructor
    · intro hc
      simp only [findSimilarPosts, if_neg hnil]
      rw [if_pos hc]
      exact pySliceTo_length_le _ _ (le_of_lt hc)
    · intro hc htop
      simp only [findSimilarPosts, if_neg hnil]
      rw [if_neg (not_lt.mpr hc)]
      exact pySliceTo_length_le _ _ htop

/-- C9 counterexample: with the default configuration
(`similar_posts_count = 10`) a caller passing `top_n = 1` to
`find_similar_posts` over a two-post corpus still receives 2 entries — the
configured value overrides the caller's argument, not the other way
around. -/
theorem findSimilarPosts_top_n_override_counterexample :
    (findSimilarPosts ⟨[], 100, 10080, 10⟩ (fun _ => []) (fun _ _ => 0) "q"
      [samplePostA, samplePostB] 1 (fun _ => none)).2.length = 2 := by
  norm_num [findSimilarPosts, simStep, EmbCache.set, scoreGe, pySliceTo,
    List.insertionSort, List.orderedInsert, postEmbedding,
    calculateEmbedding, List.length_take, samplePostA, samplePostB]
  rw [if_neg (List.cons_ne_nil _ _)]
  norm_num

/-- Concrete instances of both bounds of `findSimilarPosts_length_bound`. -/
theorem findSimilarPosts_length_bound_witness :
    ((findSimilarPosts ⟨[], 100, 10080, 10⟩ (fun _ => []) (fun _ _ => 0) "q"
        [samplePostA, samplePostB] 1 (fun _ => none)).2.length : ℤ) ≤ 10
    ∧ ((findSimilarPosts ⟨[], 100, 10080, 0⟩ (fun _ => []) (fun _ _ => 0) "q"
        [samplePostA, samplePostB] 1 (fun _ => none)).2.length : ℤ) ≤ 1 := by
  constructor
  · exact (findSimilarPosts_length_bound ⟨[], 100, 10080, 10⟩ (fun _ => [])
      (fun _ _ => 0) "q" [samplePostA, samplePostB] 1 (fun _ => none)).1
      (by norm_num)
  · exact (findSimilarPosts_length_bound ⟨[], 100, 10080, 0⟩ (fun _ => [])
      (fun _ _ => 0) "q" [samplePostA, samplePostB] 1 (fun _ => none)).2
      (by norm_num) (by norm_num)

/-! ## The posts store (`posts_cache`)

`get_all_content` keeps three kinds of records in one `diskcache.Cache`:
`f"post:{post_id}"` holding a serialized post, `f"{cache_key}:post_ids"`
holding a source's ordered member-id list, and
`f"{cache_key}:last_fetch_time"` holding a `datetime`, where
`cache_key = f"{platform_type}:{platform_url}"`.  Post ids are 32-character
hex digests (no `:`), so the three key formats are disjoint; they are
represented by the three constructors of `CKey`. -/

inductive CKey where
  | lastFetch (cacheKey : String)
  | postIds (cacheKey : String)
  | post (postId : String)
deriving DecidableEq, Repr

/-- A value stored in `posts_cache`.  Fetch instants are rationals (see the
module conventions). -/
inductive CVal where
  | time (t : ℚ)
  | ids (l : List String)
  | dict (d : PostDict)
deriving DecidableEq, Repr

abbrev PostsCache := CKey → Option CVal

/-- A write (`posts_cache[key] = value`). -/
def PostsCache.set (st : PostsCache) (k : CKey) (v : CVal) : PostsCache :=
  fun k' => if k' = k then some v else st k'

/-- `posts_cache.get(f"{cache_key}:last_fetch_time")` (line 298); only a
stored fetch instant counts (no other value is ever written under this
key). -/
def readTime (st : PostsCache) (ck : String) : Option ℚ :=
  match st (CKey.lastFetch ck) with
  | some (CVal.time t) => some t
  | _ => none

/-- `posts_cache.get(f"{cache_key}:post_ids", [])` (lines 304, 353). -/
def readIds (st : PostsCache) (ck : String) : List String :=
  match st (CKey.postIds ck) with
  | some (CVal.ids l) => l
  | _ => []

/-- `posts_cache.get(f"post:{post_id}")` (lines 308, 357). -/
def readPostDict (st : PostsCache) (pid : String) : Option PostDict :=
  match st (CKey.post pid) with
  | some (CVal.dict d) => some d
  | _ => none

/-- `cache_key = f"{platform_type}:{platform_url}"` (line 295). -/
def cacheKeyOf (p : PlatformCfg) : String := p.type ++ ":" ++ p.url

/-- The refresh condition of line 300:
`refresh or last_fetch_time is None or (now - last_fetch_time) > cache_duration`. -/
def isDue (refresh : Bool) (now dur : ℚ) (st : PostsCache) (ck : String) :
    Bool :=
  refresh ||
    (match readTime st ck with
     | none => true
     | some t => decide (now - t > dur))

/-- Reconstruction of a source's article list from the store (lines 304-311
and 353-360): dereference each member id, skipping ids whose record is
missing (a stored dict, being non-empty, is always truthy). -/
def loadCachedPosts (digest : String → String) (st : PostsCache)
    (ck : String) : List Post :=
  (readIds st ck).filterMap
    (fun pid => (readPostDict st pid).map (Post.fromDict digest))

/-- Python `dict` assignment `d[k] = v` on a dict represented as its
insertion-ordered item list: an existing key keeps its position and gets the
new value, a new key is appended. -/
def dictInsert [DecidableEq κ] (l : List (κ × β)) (k : κ) (v : β) :
    List (κ × β) :=
  if l.any (fun kv => decide (kv.1 = k)) then
    l.map (fun kv => if kv.1 = k then (k, v) else kv)
  else
    l ++ [(k, v)]

/-- Python `dict` lookup `d[k]` / `k in d` on the item-list representation. -/
def alookup (l : List (String × β)) (k : String) : Option β :=
  (l.find? (fun kv => decide (kv.1 = k))).map (fun kv => kv.2)

/-! ## Sync engine (`get_all_content`, lines 275-373) -/

/-- One iteration of the first loop (lines 290-314): compute the cache key,
decide whether the source is due, and either queue it for fetching or serve
it from the store.  (The `post_sources` dict of lines 283, 312 and 334 is
written but never read anywhere in the source, and is omitted.) -/
def dueStep (digest : String → String) (dur now : ℚ) (refresh : Bool)
    (st : PostsCache)
    (acc : List PlatformCfg × List (String × List Post)) (p : PlatformCfg) :
    List PlatformCfg × List (String × List Post) :=
  if isDue refresh now dur st (cacheKeyOf p) then
    (acc.1 ++ [p], acc.2)
  else
    (acc.1,
     dictInsert acc.2 p.effName (loadCachedPosts digest st (cacheKeyOf p)))

/-- The first loop of `get_all_content`: the platforms to fetch (in
configuration order) and the results dict seeded with the not-due sources'
cached article lists. -/
def duePartition (digest : String → String) (cfg : Config) (now : ℚ)
    (refresh : Bool) (st : PostsCache) :
    List PlatformCfg × List (String × List Post) :=
  cfg.platforms.foldl (dueStep digest cfg.cache_duration_minutes now refresh st)
    ([], [])

/-- State threaded through the second loop (lines 317-363): the store, the
results dict, the `new_posts` dict (id-keyed, insertion ordered) and — pure
instrumentation, recording which `(type, url)` adapters were actually
invoked — the call log. -/
structure FetchSt where
  store : PostsCache
  results : List (String × List Post)
  newPosts : List (String × Post)
  calls : List (String × String)

/-- The body of the `try` after an adapter call returned, plus the `except`
fallback (lines 329-363).  On success (lines 329-348): write every returned
post under `post:{id}`, record it in `new_posts`, then replace the source's
member-id list and set its fetch time to `now`, and enter the fresh list
into the results dict.  On an exception escaping the adapter call
(lines 350-363): reread the member-id list from the store and enter the
dereferenced snapshot into the results dict only when it is non-empty
(`if platform_posts:`); the store is not touched. -/
def applyOutcome (digest : String → String) (now : ℚ) (ck nm : String)
    (s : FetchSt) (outcome : Except Unit (List Post)) : FetchSt :=
  match outcome with
  | Except.ok posts =>
      let store1 := posts.foldl
        (fun st po => st.set (CKey.post po.id) (CVal.dict po.toDict)) s.store
      let store2 := (store1.set (CKey.postIds ck)
          (CVal.ids (posts.map (fun po => po.id)))).set
        (CKey.lastFetch ck) (CVal.time now)
      { store := store2,
        results := dictInsert s.results nm posts,
        newPosts := posts.foldl (fun np po => dictInsert np po.id po)
          s.newPosts,
        calls := s.calls }
  | Except.error _ =>
      let platform_posts := loadCachedPosts digest s.store ck
      { s with
        results := if platform_posts = [] then s.results
          else dictInsert s.results nm platform_posts }

/-- One iteration of the second loop: dispatch on the platform type
(lines 321-327).  A `substack` or `medium` source invokes its adapter (the
invocation is logged in `calls`); an unknown type is logged and skipped
(`continue`) — no adapter call, no store access, no results entry. -/
def processPlatform (digest : String → String)
    (fetchS fetchM : String → ℕ → String → Except Unit (List Post))
    (maxPosts : ℕ) (now : ℚ) (s : FetchSt) (p : PlatformCfg) : FetchSt :=
  if p.type = "substack" then
    applyOutcome digest now (cacheKeyOf p) p.effName
      { s with calls := s.calls ++ [(p.type, p.url)] }
      (fetchS p.url maxPosts p.effName)
  else if p.type = "medium" then
    applyOutcome digest now (cacheKeyOf p) p.effName
      { s with calls := s.calls ++ [(p.type, p.url)] }
      (fetchM p.url maxPosts p.effName)
  else
    s

/-- The third loop (lines 365-371): for every new/changed post whose id has
no embedding cache entry, compute and store its embedding. -/
def genEmbeddings (embed : String → Vec) (emb0 : EmbCache)
    (newPosts : List (String × Post)) : EmbCache :=
  newPosts.foldl
    (fun emb kv =>
      match emb kv.1 with
      | some _ => emb
      | none => emb.set kv.1 (postEmbedding embed kv.2)) emb0

/-- The output of `get_all_content`: the final stores, the returned
source-name → article-list mapping, and the adapter-invocation log. -/
structure SyncOut where
  store : PostsCache
  emb : EmbCache
  results : List (String × List Post)
  calls : List (String × String)

/-- `get_all_content` (lines 275-373), with the external collaborators as
parameters: `digest` (MD5), `embed` (the sentence-transformer), and the two
adapters `fetchS` / `fetchM` whose `Except.error` stands for an exception
raised into the per-platform `try`.  `max_posts` is read from the
configuration at each iteration (line 319) — the same value every time. -/
def getAllContent (digest : String → String) (embed : String → Vec)
    (fetchS fetchM : String → ℕ → String → Except Unit (List Post))
    (cfg : Config) (now : ℚ) (refresh : Bool)
    (st0 : PostsCache) (emb0 : EmbCache) : SyncOut :=
  let part := duePartition digest cfg now refresh st0
  let s := part.1.foldl
    (processPlatform digest fetchS fetchM cfg.max_posts now)
    { store := st0, results := part.2, newPosts := [], calls := [] }
  { store := s.store, emb := genEmbeddings embed emb0 s.newPosts,
    results := s.results, calls := s.calls }

/-- `fetch_substack_posts` (lines 118-167).  The whole network interaction
(HTTP GET of `{url}feed`, `feedparser.parse`) sits in a `try` whose `except`
logs and returns the empty list (lines 131-133) — a network or parse error
does NOT raise to the caller.  On success the first `max_posts` entries are
each converted inside a per-entry `try` (HTML cleaning, date parsing)
whose `except` skips the entry; `convert` is that per-entry step, `none`
meaning the entry raised.  `fetch_medium_posts` (lines 170-215) has the
identical error structure. -/
def fetchSubstackPosts {α : Type} (convert : α → Option Post)
    (feed : Except Unit (List α)) (maxPosts : ℕ) : List Post :=
  match feed with
  | Except.error _ => []
  | Except.ok entries => (entries.take maxPosts).filterMap convert

/-- Lookup distributes over dict-list append. -/
theorem alookup_append (l₁ l₂ : List (String × β)) (k : String) :
    alookup (l₁ ++ l₂) k = (alookup l₁ k).or (alookup l₂ k) := by
  unfold alookup
  rw [List.find?_append]
  cases h : l₁.find? (fun kv => decide (kv.1 = k)) <;> simp [h]

/-- The positional update of `dictInsert` does not disturb entries whose key
the lookup is not asking for. -/
theorem find?_map_update_ne [DecidableEq κ] (k : κ) (v : β) (n : κ)
    (h : ¬ k = n) :
    ∀ l : List (κ × β),
      (l.map (fun kv => if kv.1 = k then (k, v) else kv)).find?
          (fun kv => decide (kv.1 = n))
        = l.find? (fun kv => decide (kv.1 = n))
  | [] => rfl
  | kv :: l => by
    by_cases hk : kv.1 = k
    · have h1 : (if kv.1 = k then (k, v) else kv) = (k, v) := if_pos hk
      simp only [List.map_cons, List.find?_cons, h1]
      rw [decide_eq_false h, decide_eq_false (hk ▸ h : ¬ kv.1 = n)]
      exact find?_map_update_ne k v n h l
    · have h1 : (if kv.1 = k then (k, v) else kv) = kv := if_neg hk
      simp only [List.map_cons, List.find?_cons, h1]
      cases hp : (decide (kv.1 = n)) <;>
        simp [hp, find?_map_update_ne k v n h l]

/-- `d[k] = v` leaves every other key's association unchanged. -/
theorem alookup_dictInsert_ne (l : List (String × β)) (k : String) (v : β)
    (n : String) (h : ¬ k = n) :
    alookup (dictInsert l k v) n = alookup l n := by
  unfold dictInsert
  split
  · unfold alookup
    rw [find?_map_update_ne k v n h]
  · rw [alookup_append]
    have h1 : alookup [(k, v)] n = none := by
      simp [alookup, List.find?_cons, decide_eq_false h]
    rw [h1]
    cases alookup l n <;> rfl

/-- After `d[k] = v`, looking up `k` yields `v`. -/
theorem alookup_dictInsert_self (l : List (String × β)) (k : String)
    (v : β) :
    alookup (dictInsert l k v) k = some v := by
  unfold dictInsert
  split <;> rename_i hany
  · unfold alookup
    induction l with
    | nil => simp at hany
    | cons kv l ih =>
      by_cases hk : kv.1 = k
      · have h1 : (if kv.1 = k then (k, v) else kv) = (k, v) := if_pos hk
        simp [List.find?_cons, h1]
      · have h1 : (if kv.1 = k then (k, v) else kv) = kv := if_neg hk
        have hany' : l.any (fun kv => decide (kv.1 = k)) := by
          simp only [List.any_cons, decide_eq_false hk, Bool.false_or] at hany
          exact hany
        simp only [List.map_cons, List.find?_cons, h1, decide_eq_false hk]
        exact ih hany'
  · rw [alookup_append]
    have hl : alookup l k = none := by
      unfold alookup
      have hf : l.find? (fun kv => decide (kv.1 = k)) = none := by
        rw [List.find?_eq_none]
        intro kv hkv hp
        exact hany (List.any_eq_true.mpr ⟨kv, hkv, hp⟩)
      rw [hf]
      rfl
    rw [hl]
    simp [alookup, List.find?_cons]

/-- The fetch queue built by the first loop is exactly the due platforms in
configuration order. -/
theorem duePartition_go_fst (digest : String → String) (dur now : ℚ)
    (refresh : Bool) (st : PostsCache) :
    ∀ (ps : List PlatformCfg) (acc : List PlatformCfg × List (String × List Post)),
      (ps.foldl (dueStep digest dur now refresh st) acc).1
        = acc.1 ++ ps.filter (fun p => isDue refresh now dur st (cacheKeyOf p))
  | [], acc => by simp
  | p :: ps, acc => by
    rw [List.foldl_cons, duePartition_go_fst digest dur now refresh st ps _]
    by_cases h : isDue refresh now dur st (cacheKeyOf p) = true
    · simp [dueStep, h, List.filter_cons]
    · simp only [Bool.not_eq_true] at h
      simp [dueStep, h, List.filter_cons]

theorem duePartition_fst (digest : String → String) (cfg : Config)
    (now : ℚ) (refresh : Bool) (st : PostsCache) :
    (duePartition digest cfg now refresh st).1
      = cfg.platforms.filter
          (fun p => isDue refresh now cfg.cache_duration_minutes st
            (cacheKeyOf p)) := by
  unfold duePartition
  rw [duePartition_go_fst]
  simp

/-- With `refresh=True` every platform is due and nothing is served from the
cache in the first loop. -/
theorem duePartition_refresh_true (digest : String → String) (cfg : Config)
    (now : ℚ) (st : PostsCache) :
    duePartition digest cfg now true st = (cfg.platforms, []) := by
  unfold duePartition
  have go : ∀ (ps : List PlatformCfg)
      (acc : List PlatformCfg × List (String × List Post)),
      ps.foldl (dueStep digest cfg.cache_duration_minutes now true st) acc
        = (acc.1 ++ ps, acc.2) := by
    intro ps
    induction ps with
    | nil => intro acc; simp
    | cons p ps ih =>
      intro acc
      rw [List.foldl_cons, ih]
      simp [dueStep, isDue]
  rw [go]
  simp

/-- The refresh condition, spelled out: line 300 fires exactly when
`forceRefresh` is set, or no fetch time is stored under the `(type, url)`
cache key, or the stored fetch time is older than the TTL (strictly). -/
theorem isDue_iff (refresh : Bool) (now dur : ℚ) (st : PostsCache)
    (ck : String) :
    isDue refresh now dur st ck = true
      ↔ (refresh = true ∨ readTime st ck = none
          ∨ ∃ t, readTime st ck = some t ∧ now - t > dur) := by
  unfold isDue
  cases refresh
  · cases h : readTime st ck <;> simp [h]
  · simp

/-- Neither branch of the fetch handler touches the call log. -/
theorem applyOutcome_calls (digest : String → String) (now : ℚ)
    (ck nm : String) (s : FetchSt) (o : Except Unit (List Post)) :
    (applyOutcome digest now ck nm s o).calls = s.calls := by
  cases o <;> rfl

/-- One iteration of the second loop logs exactly the adapter invocation it
performs: one `(type, url)` record for a supported platform type, nothing
for an unknown type. -/
theorem processPlatform_calls (digest : String → String)
    (fetchS fetchM : String → ℕ → String → Except Unit (List Post))
    (maxPosts : ℕ) (now : ℚ) (s : FetchSt) (p : PlatformCfg) :
    (processPlatform digest fetchS fetchM maxPosts now s p).calls
      = s.calls ++
        (if p.type = "substack" || p.type = "medium"
          then [(p.type, p.url)] else []) := by
  unfold processPlatform
  by_cases hs : p.type = "substack"
  · simp [hs, applyOutcome_calls]
  · by_cases hm : p.type = "medium"
    · simp [hs, hm, applyOutcome_calls]
    · simp [hs, hm]

/-- The call log accumulated over the fetch loop: one record per supported
due platform, in order. -/
theorem processPlatform_calls_fold (digest : String → String)
    (fetchS fetchM : String → ℕ → String → Except Unit (List Post))
    (maxPosts : ℕ) (now : ℚ) :
    ∀ (ps : List PlatformCfg) (s : FetchSt),
      (ps.foldl (processPlatform digest fetchS fetchM maxPosts now) s).calls
        = s.calls ++
          (ps.filter (fun p => p.type = "substack" || p.type = "medium")).map
            (fun p => (p.type, p.url))
  | [], s => by simp
  | p :: ps, s => by
    rw [List.foldl_cons,
      processPlatform_calls_fold digest fetchS fetchM maxPosts now ps _,
      processPlatform_calls]
    by_cases h : (p.type = "substack" || p.type = "medium") = true
    · simp [h, List.filter_cons]
    · simp only [Bool.not_eq_true] at h
      simp [h, List.filter_cons]

/-- One iteration of the second loop does not move any other name's results
entry. -/
theorem processPlatform_results_ne (digest : String → String)
    (fetchS fetchM : String → ℕ → String → Except Unit (List Post))
    (maxPosts : ℕ) (now : ℚ) (s : FetchSt) (p : PlatformCfg) (n : String)
    (h : ¬ p.effName = n) :
    alookup (processPlatform digest fetchS fetchM maxPosts now s p).results n
      = alookup s.results n := by
  unfold processPlatform
  by_cases hs : p.type = "substack"
  · rw [if_pos hs]
    rcases ho : fetchS p.url maxPosts p.effName with e | posts
    · simp only [applyOutcome, ho]
      split
      · rfl
      · exact alookup_dictInsert_ne _ _ _ _ h
    · simp only [applyOutcome, ho]
      exact alookup_dictInsert_ne _ _ _ _ h
  · rw [if_neg hs]
    by_cases hm : p.type = "medium"
    · rw [if_pos hm]
      rcases ho : fetchM p.url maxPosts p.effName with e | posts
      · simp only [applyOutcome, ho]
        split
        · rfl
        · exact alookup_dictInsert_ne _ _ _ _ h
      · simp only [applyOutcome, ho]
        exact alookup_dictInsert_ne _ _ _ _ h
    · rw [if_neg hm]

/-- Frame over the whole fetch loop: a name that belongs to no processed
platform keeps its results entry. -/
theorem processPlatform_results_fold_ne (digest : String → String)
    (fetchS fetchM : String → ℕ → String → Except Unit (List Post))
    (maxPosts : ℕ) (now : ℚ) :
    ∀ (ps : List PlatformCfg) (s : FetchSt) (n : String),
      (∀ q ∈ ps, ¬ q.effName = n) →
      alookup
        ((ps.foldl (processPlatform digest fetchS fetchM maxPosts now) s).results)
        n
        = alookup s.results n
  | [], _, _, _ => rfl
  | p :: ps, s, n, hq => by
    rw [List.foldl_cons,
      processPlatform_results_fold_ne digest fetchS fetchM maxPosts now ps _
        n (fun q hqm => hq q (List.mem_cons_of_mem p hqm)),
      processPlatform_results_ne digest fetchS fetchM maxPosts now s p n
        (hq p (List.mem_cons_self p ps))]

/-- Frame over the first loop: a name that belongs to no listed platform
keeps its results entry. -/
theorem dueStep_fold_ne (digest : String → String) (dur now : ℚ)
    (refresh : Bool) (st : PostsCache) :
    ∀ (ps : List PlatformCfg)
      (acc : List PlatformCfg × List (String × List Post)) (n : String),
      (∀ q ∈ ps, ¬ q.effName = n) →
      alookup (ps.foldl (dueStep digest dur now refresh st) acc).2 n
        = alookup acc.2 n
  | [], _, _, _ => rfl
  | p :: ps, acc, n, hq => by
    rw [List.foldl_cons,
      dueStep_fold_ne digest dur now refresh st ps _ n
        (fun q hqm => hq q (List.mem_cons_of_mem p hqm))]
    unfold dueStep
    split
    · rfl
    · exact alookup_dictInsert_ne _ _ _ _ (hq p (List.mem_cons_self p ps))

/-- First-loop result entry for a not-due platform: with pairwise-distinct
display names its entry is exactly the cache reconstruction. -/
theorem duePartition_snd_lookup (digest : String → String) (dur now : ℚ)
    (refresh : Bool) (st : PostsCache) :
    ∀ (ps : List PlatformCfg)
      (acc : List PlatformCfg × List (String × List Post)) (p : PlatformCfg),
      p ∈ ps →
      isDue refresh now dur st (cacheKeyOf p) = false →
      (ps.map PlatformCfg.effName).Nodup →
      alookup acc.2 p.effName = none →
      alookup (ps.foldl (dueStep digest dur now refresh st) acc).2 p.effName
        = some (loadCachedPosts digest st (cacheKeyOf p))
  | [], _, p, hp, _, _, _ => absurd hp (List.not_mem_nil p)
  | q :: ps, acc, p, hp, hdue, hnd, hacc => by
    have hnd' : (ps.map PlatformCfg.effName).Nodup :=
      (List.nodup_cons.mp (by simpa using hnd)).2
    have hqnames : q.effName ∉ ps.map PlatformCfg.effName :=
      (List.nodup_cons.mp (by simpa using hnd)).1
    rcases List.mem_cons.mp hp with rfl | hp'
    · rw [List.foldl_cons]
      have hstep : dueStep digest dur now refresh st acc p
          = (acc.1, dictInsert acc.2 p.effName
              (loadCachedPosts digest st (cacheKeyOf p))) := by
        unfold dueStep
        rw [if_neg (by simp [hdue])]
      rw [hstep, dueStep_fold_ne digest dur now refresh st ps _ p.effName]
      · exact alookup_dictInsert_self _ _ _
      · intro r hr hre
        exact hqnames (hre ▸ List.mem_map_of_mem PlatformCfg.effName hr)
    · have hne : ¬ q.effName = p.effName := by
        intro he
        exact hqnames (he ▸ List.mem_map_of_mem PlatformCfg.effName hp')
      rw [List.foldl_cons]
      refine duePartition_snd_lookup digest dur now refresh st ps _ p hp'
        hdue hnd' ?_
      unfold dueStep
      split
      · exact hacc
      · rw [alookup_dictInsert_ne _ _ _ _ hne]
        exact hacc

/-- The adapter-invocation log of a full `get_all_content` run: exactly the
supported due platforms, in configuration order. -/
theorem getAllContent_calls (digest : String → String) (embed : String → Vec)
    (fetchS fetchM : String → ℕ → String → Except Unit (List Post))
    (cfg : Config) (now : ℚ) (refresh : Bool) (st0 : PostsCache)
    (emb0 : EmbCache) :
    (getAllContent digest embed fetchS fetchM cfg now refresh st0 emb0).calls
      = ((cfg.platforms.filter (fun q =>
            isDue refresh now cfg.cache_duration_minutes st0 (cacheKeyOf q))).filter
          (fun q => q.type = "substack" || q.type = "medium")).map
          (fun q => (q.type, q.url)) := by
  simp only [getAllContent]
  rw [processPlatform_calls_fold, duePartition_fst]
  simp

/-- C2: for every configured source with a supported platform type,
`get_all_content` invokes that source's adapter exactly when `refresh` is
set, or no fetch time is stored under its `(type, url)` cache key, or the
stored fetch time is more than `cache_duration` old; and (given distinct
display names) a source that is not due is served from the store — its
results entry is the dereference of its stored member-id list — without any
adapter invocation for it (first conjunct, right-to-left, applied to the
same `(type, url)`). -/
theorem getAllContent_refetch_iff_due (digest : String → String)
    (embed : String → Vec)
    (fetchS fetchM : String → ℕ → String → Except Unit (List Post))
    (cfg : Config) (now : ℚ) (refresh : Bool) (st0 : PostsCache)
    (emb0 : EmbCache) (p : PlatformCfg) (hp : p ∈ cfg.platforms) :
    ((p.type = "substack" ∨ p.type = "medium") →
      ((p.type, p.url)
          ∈ (getAllContent digest embed fetchS fetchM cfg now refresh st0
              emb0).calls
        ↔ (refresh = true ∨ readTime st0 (cacheKeyOf p) = none
            ∨ ∃ t, readTime st0 (cacheKeyOf p) = some t
                ∧ now - t > cfg.cache_duration_minutes)))
    ∧ ((cfg.platforms.map PlatformCfg.effName).Nodup →
        isDue refresh now cfg.cache_duration_minutes st0 (cacheKeyOf p)
            = false →
        alookup
            (getAllContent digest embed fetchS fetchM cfg now refresh st0
              emb0).results p.effName
          = some (loadCachedPosts digest st0 (cacheKeyOf p))) := by
  constructor
  · intro hsup
    rw [getAllContent_calls]
    constructor
    · intro hmem
      rcases List.mem_map.mp hmem with ⟨q, hq, he⟩
      rcases List.mem_filter.mp hq with ⟨hq2, _⟩
      rcases List.mem_filter.mp hq2 with ⟨_, hqdue⟩
      have htype : q.type = p.type := congrArg Prod.fst he
      have hurl : q.url = p.url := congrArg Prod.snd he
      have hck : cacheKeyOf q = cacheKeyOf p := by
        unfold cacheKeyOf
        rw [htype, hurl]
      rw [hck] at hqdue
      exact (isDue_iff refresh now cfg.cache_duration_minutes st0
        (cacheKeyOf p)).mp hqdue
    · intro hdue
      refine List.mem_map_of_mem _ (List.mem_filter.mpr ⟨?_, ?_⟩)
      · exact List.mem_filter.mpr
          ⟨hp, (isDue_iff refresh now cfg.cache_duration_minutes st0
            (cacheKeyOf p)).mpr hdue⟩
      · rcases hsup with h | h <;> simp [h]
  · intro hnd hnotdue
    have hres : (getAllContent digest embed fetchS fetchM cfg now refresh st0
        emb0).results
        = ((duePartition digest cfg now refresh st0).1.foldl
            (processPlatform digest fetchS fetchM cfg.max_posts now)
            { store := st0,
              results := (duePartition digest cfg now refresh st0).2,
              newPosts := [], calls := [] }).results := by
      simp only [getAllContent]
    rw [hres, processPlatform_results_fold_ne]
    · show alookup (duePartition digest cfg now refresh st0).2 p.effName = _
      unfold duePartition
      exact duePartition_snd_lookup digest cfg.cache_duration_minutes now
        refresh st0 cfg.platforms ([], []) p hp hnotdue hnd rfl
    · intro q hq he
      rw [duePartition_fst] at hq
      rcases List.mem_filter.mp hq with ⟨hqmem, hqdue⟩
      have hqp : q = p := List.inj_on_of_nodup_map hnd hqmem hp he
      rw [hqp, hnotdue] at hqdue
      exact Bool.false_ne_true hqdue

/-- Concrete instances of both conjuncts of the TTL-gating theorem: a
source with no stored fetch time is refetched by `ensureFresh(false)`; a
source fetched 1 minute ago with a 10-minute TTL is served from the store
(and its entry is the cache reconstruction). -/
theorem getAllContent_refetch_iff_due_witness :
    ("substack", "u")
        ∈ (getAllContent id (fun _ => []) (fun _ _ _ => Except.ok [])
            (fun _ _ _ => Except.ok [])
            ⟨[⟨"substack", "u", some "nm"⟩], 100, 10, 10⟩ 6 false
            (fun _ => none) (fun _ => none)).calls
    ∧ alookup
        (getAllContent id (fun _ => []) (fun _ _ _ => Except.ok [])
          (fun _ _ _ => Except.ok [])
          ⟨[⟨"substack", "u", some "nm"⟩], 100, 10, 10⟩ 6 false
          (fun k => if k = CKey.lastFetch "substack:u"
            then some (CVal.time 5) else none)
          (fun _ => none)).results "nm"
      = some (loadCachedPosts id
          (fun k => if k = CKey.lastFetch "substack:u"
            then some (CVal.time 5) else none) "substack:u" : List Post) := by
  constructor
  · exact ((getAllContent_refetch_iff_due id (fun _ => [])
      (fun _ _ _ => Except.ok []) (fun _ _ _ => Except.ok [])
      ⟨[⟨"substack", "u", some "nm"⟩], 100, 10, 10⟩ 6 false
      (fun _ => none) (fun _ => none) ⟨"substack", "u", some "nm"⟩
      (List.mem_singleton.mpr rfl)).1 (Or.inl rfl)).mpr
      (Or.inr (Or.inl rfl))
  · exact (getAllContent_refetch_iff_due id (fun _ => [])
      (fun _ _ _ => Except.ok []) (fun _ _ _ => Except.ok [])
      ⟨[⟨"substack", "u", some "nm"⟩], 100, 10, 10⟩ 6 false
      (fun k => if k = CKey.lastFetch "substack:u"
        then some (CVal.time 5) else none)
      (fun _ => none) ⟨"substack", "u", some "nm"⟩
      (List.mem_singleton.mpr rfl)).2 (by simp [PlatformCfg.effName])
      (by
        have hck : ("substack" ++ ":" ++ "u" : String) = "substack:u" := rfl
        norm_num [isDue, readTime, cacheKeyOf, hck,
          decide_eq_false_iff_not])

/-! ## Store writes of the fetch loop, as explicit write lists (for the
idempotent-refresh claim) -/

/-- The sequence of store writes one fetch-loop iteration performs, in
order: one `post:{id}` record per returned post, then the member-id list,
then the fetch time.  A failed or unknown-type platform writes nothing.
The list depends only on the platform entry and the adapter outcome — not
on the store. -/
def storeWrites (fetchS fetchM : String → ℕ → String → Except Unit (List Post))
    (maxPosts : ℕ) (now : ℚ) (p : PlatformCfg) : List (CKey × CVal) :=
  let handle := fun (outcome : Except Unit (List Post)) =>
    match outcome with
    | Except.ok posts =>
        posts.map (fun po => (CKey.post po.id, CVal.dict po.toDict))
          ++ [(CKey.postIds (cacheKeyOf p),
                CVal.ids (posts.map (fun po => po.id))),
              (CKey.lastFetch (cacheKeyOf p), CVal.time now)]
    | Except.error _ => []
  if p.type = "substack" then handle (fetchS p.url maxPosts p.effName)
  else if p.type = "medium" then handle (fetchM p.url maxPosts p.effName)
  else []

/-- Replay a write list onto a store. -/
def applyWrites (st : PostsCache) (ws : List (CKey × CVal)) : PostsCache :=
  ws.foldl (fun s kv => s.set kv.1 kv.2) st

/-- The last write a list performs at a key, if any. -/
def lastWrite (ws : List (CKey × CVal)) (k : CKey) : Option CVal :=
  (ws.reverse.find? (fun kv => decide (kv.1 = k))).map (fun kv => kv.2)

theorem applyWrites_append (st : PostsCache) (ws₁ ws₂ : List (CKey × CVal)) :
    applyWrites st (ws₁ ++ ws₂) = applyWrites (applyWrites st ws₁) ws₂ := by
  unfold applyWrites
  rw [List.foldl_append]

/-- One fetch-loop iteration transforms the store by exactly its write
list. -/
theorem processPlatform_store (digest : String → String)
    (fetchS fetchM : String → ℕ → String → Except Unit (List Post))
    (maxPosts : ℕ) (now : ℚ) (s : FetchSt) (p : PlatformCfg) :
    (processPlatform digest fetchS fetchM maxPosts now s p).store
      = applyWrites s.store (storeWrites fetchS fetchM maxPosts now p) := by
  unfold processPlatform storeWrites
  by_cases hs : p.type = "substack"
  · simp only [if_pos hs]
    rcases ho : fetchS p.url maxPosts p.effName with e | posts
    · simp [applyOutcome, ho, applyWrites]
    · simp only [applyOutcome, ho]
      rw [applyWrites_append]
      have h1 : applyWrites s.store
          (posts.map (fun po => (CKey.post po.id, CVal.dict po.toDict)))
          = posts.foldl
              (fun st po => st.set (CKey.post po.id) (CVal.dict po.toDict))
              s.store := by
        unfold applyWrites
        rw [List.foldl_map]
      rw [h1]
      rfl
  · simp only [if_neg hs]
    by_cases hm : p.type = "medium"
    · simp only [if_pos hm]
      rcases ho : fetchM p.url maxPosts p.effName with e | posts
      · simp [applyOutcome, ho, applyWrites]
      · simp only [applyOutcome, ho]
        rw [applyWrites_append]
        have h1 : applyWrites s.store
            (posts.map (fun po => (CKey.post po.id, CVal.dict po.toDict)))
            = posts.foldl
                (fun st po => st.set (CKey.post po.id) (CVal.dict po.toDict))
                s.store := by
          unfold applyWrites
          rw [List.foldl_map]
        rw [h1]
        rfl
    · simp only [if_neg hm]
      rfl

/-- The write lists of the whole fetch loop, concatenated in order. -/
def allWrites (fetchS fetchM : String → ℕ → String → Except Unit (List Post))
    (maxPosts : ℕ) (now : ℚ) : List PlatformCfg → List (CKey × CVal)
  | [] => []
  | p :: ps => storeWrites fetchS fetchM maxPosts now p
      ++ allWrites fetchS fetchM maxPosts now ps

theorem processPlatform_store_fold (digest : String → String)
    (fetchS fetchM : String → ℕ → String → Except Unit (List Post))
    (maxPosts : ℕ) (now : ℚ) :
    ∀ (ps : List PlatformCfg) (s : FetchSt),
      (ps.foldl (processPlatform digest fetchS fetchM maxPosts now) s).store
        = applyWrites s.store (allWrites fetchS fetchM maxPosts now ps)
  | [], s => rfl
  | p :: ps, s => by
    rw [List.foldl_cons,
      processPlatform_store_fold digest fetchS fetchM maxPosts now ps _,
      processPlatform_store, allWrites, applyWrites_append]

/-- Replaying a write list is last-write-wins at every key. -/
theorem applyWrites_eq_lastWrite :
    ∀ (ws : List (CKey × CVal)) (st : PostsCache) (k : CKey),
      applyWrites st ws k
        = (match lastWrite ws k with
            | some v => some v
            | none => st k)
  | [], st, k => by simp [applyWrites, lastWrite]
  | (k', v) :: ws, st, k => by
    have h1 : applyWrites st ((k', v) :: ws) = applyWrites (st.set k' v) ws :=
      rfl
    rw [h1, applyWrites_eq_lastWrite ws (st.set k' v) k]
    unfold lastWrite
    rw [List.reverse_cons, List.find?_append]
    cases hf : ws.reverse.find? (fun kv => decide (kv.1 = k)) with
    | some kv => simp [hf]
    | none =>
      simp only [hf, Option.none_or]
      by_cases hk : k' = k
      · simp [List.find?_cons, decide_eq_true (by exact hk), PostsCache.set,
          hk]
      · have hk2 : ¬ k = k' := fun h => hk h.symm
        simp [List.find?_cons, decide_eq_false hk, PostsCache.set, hk2]

theorem lastWrite_append (ws₁ ws₂ : List (CKey × CVal)) (k : CKey) :
    lastWrite (ws₁ ++ ws₂) k
      = (match lastWrite ws₂ k with
          | some v => some v
          | none => lastWrite ws₁ k) := by
  unfold lastWrite
  rw [List.reverse_append, List.find?_append]
  cases hf : ws₂.reverse.find? (fun kv => decide (kv.1 = k)) <;> simp [hf]

/-- Appending a single write at a different key does not change the last
write at `k`. -/
theorem lastWrite_snoc_ne (ws : List (CKey × CVal)) (k k' : CKey) (v : CVal)
    (h : ¬ k' = k) :
    lastWrite (ws ++ [(k', v)]) k = lastWrite ws k := by
  rw [lastWrite_append]
  have h2 : lastWrite [(k', v)] k = none := by
    simp [lastWrite, List.find?_cons, decide_eq_false h]
  rw [h2]

/-- The only write of a fetch iteration that mentions the fetch instant is
the one at the `last_fetch_time` key: at any other key, the last write is
the same whatever `now` is. -/
theorem storeWrites_lastWrite_time_indep
    (fetchS fetchM : String → ℕ → String → Except Unit (List Post))
    (maxPosts : ℕ) (n₁ n₂ : ℚ) (p : PlatformCfg) (k : CKey)
    (hk : ∀ ck, ¬ CKey.lastFetch ck = k) :
    lastWrite (storeWrites fetchS fetchM maxPosts n₁ p) k
      = lastWrite (storeWrites fetchS fetchM maxPosts n₂ p) k := by
  unfold storeWrites
  by_cases hs : p.type = "substack"
  · simp only [if_pos hs]
    rcases ho : fetchS p.url maxPosts p.effName with e | posts
    · rfl
    · simp only
      have hsplit : ∀ (n : ℚ),
          posts.map (fun po => (CKey.post po.id, CVal.dict po.toDict))
            ++ [(CKey.postIds (cacheKeyOf p),
                  CVal.ids (posts.map (fun po => po.id))),
                (CKey.lastFetch (cacheKeyOf p), CVal.time n)]
          = (posts.map (fun po => (CKey.post po.id, CVal.dict po.toDict))
              ++ [(CKey.postIds (cacheKeyOf p),
                    CVal.ids (posts.map (fun po => po.id)))])
            ++ [(CKey.lastFetch (cacheKeyOf p), CVal.time n)] := by
        intro n
        simp
      rw [hsplit n₁, hsplit n₂, lastWrite_snoc_ne _ _ _ _ (hk _),
        lastWrite_snoc_ne _ _ _ _ (hk _)]
  · simp only [if_neg hs]
    by_cases hm : p.type = "medium"
    · simp only [if_pos hm]
      rcases ho : fetchM p.url maxPosts p.effName with e | posts
      · rfl
      · simp only
        have hsplit : ∀ (n : ℚ),
            posts.map (fun po => (CKey.post po.id, CVal.dict po.toDict))
              ++ [(CKey.postIds (cacheKeyOf p),
                    CVal.ids (posts.map (fun po => po.id))),
                  (CKey.lastFetch (cacheKeyOf p), CVal.time n)]
            = (posts.map (fun po => (CKey.post po.id, CVal.dict po.toDict))
                ++ [(CKey.postIds (cacheKeyOf p),
                      CVal.ids (posts.map (fun po => po.id)))])
              ++ [(CKey.lastFetch (cacheKeyOf p), CVal.time n)] := by
          intro n
          simp
        rw [hsplit n₁, hsplit n₂, lastWrite_snoc_ne _ _ _ _ (hk _),
          lastWrite_snoc_ne _ _ _ _ (hk _)]
    · simp only [if_neg hm]

theorem allWrites_lastWrite_time_indep
    (fetchS fetchM : String → ℕ → String → Except Unit (List Post))
    (maxPosts : ℕ) (n₁ n₂ : ℚ) (k : CKey)
    (hk : ∀ ck, ¬ CKey.lastFetch ck = k) :
    ∀ ps : List PlatformCfg,
      lastWrite (allWrites fetchS fetchM maxPosts n₁ ps) k
        = lastWrite (allWrites fetchS fetchM maxPosts n₂ ps) k
  | [] => rfl
  | p :: ps => by
    unfold allWrites
    rw [lastWrite_append, lastWrite_append,
      allWrites_lastWrite_time_indep fetchS fetchM maxPosts n₁ n₂ k hk ps,
      storeWrites_lastWrite_time_indep fetchS fetchM maxPosts n₁ n₂ p k hk]

/-- Under `refresh=True` the store transformation of `get_all_content` is
exactly the replay of the fetch loop's write lists. -/
theorem getAllContent_store_refresh_true (digest : String → String)
    (embed : String → Vec)
    (fetchS fetchM : String → ℕ → String → Except Unit (List Post))
    (cfg : Config) (now : ℚ) (st : PostsCache) (emb : EmbCache) :
    (getAllContent digest embed fetchS fetchM cfg now true st emb).store
      = applyWrites st
          (allWrites fetchS fetchM cfg.max_posts now cfg.platforms) := by
  simp only [getAllContent, duePartition_refresh_true]
  rw [processPlatform_store_fold]

/-- C8: calling `get_all_content(refresh=True)` twice in succession, with
the adapters (as functions of `(url, max_posts, name)`) returning the same
articles both times, leaves every `post:{id}` record and every source's
member-id list exactly as the first call left them — the second call
rewrites the same values, introducing no duplicates.  (The
`last_fetch_time` keys do change: they take the second call's clock
value.) -/
theorem getAllContent_refresh_idempotent (digest : String → String)
    (embed₁ embed₂ : String → Vec)
    (fetchS fetchM : String → ℕ → String → Except Unit (List Post))
    (cfg : Config) (n₁ n₂ : ℚ) (st0 : PostsCache) (emb0 emb1 : EmbCache) :
    (∀ pid : String,
      (getAllContent digest embed₂ fetchS fetchM cfg n₂ true
          (getAllContent digest embed₁ fetchS fetchM cfg n₁ true st0
            emb0).store emb1).store (CKey.post pid)
        = (getAllContent digest embed₁ fetchS fetchM cfg n₁ true st0
            emb0).store (CKey.post pid))
    ∧ (∀ ck : String,
      (getAllContent digest embed₂ fetchS fetchM cfg n₂ true
          (getAllContent digest embed₁ fetchS fetchM cfg n₁ true st0
            emb0).store emb1).store (CKey.postIds ck)
        = (getAllContent digest embed₁ fetchS fetchM cfg n₁ true st0
            emb0).store (CKey.postIds ck)) := by
  have key : ∀ k : CKey, (∀ ck, ¬ CKey.lastFetch ck = k) →
      (getAllContent digest embed₂ fetchS fetchM cfg n₂ true
          (getAllContent digest embed₁ fetchS fetchM cfg n₁ true st0
            emb0).store emb1).store k
        = (getAllContent digest embed₁ fetchS fetchM cfg n₁ true st0
            emb0).store k := by
    intro k hk
    simp only [getAllContent_store_refresh_true]
    have hmain : (match
        lastWrite (allWrites fetchS fetchM cfg.max_posts n₁ cfg.platforms) k
        with
        | some v => some v
        | none =>
            applyWrites st0
              (allWrites fetchS fetchM cfg.max_posts n₁ cfg.platforms) k)
        = applyWrites st0
            (allWrites fetchS fetchM cfg.max_posts n₁ cfg.platforms) k := by
      cases hL : lastWrite
          (allWrites fetchS fetchM cfg.max_posts n₁ cfg.platforms) k with
      | some v =>
        rw [applyWrites_eq_lastWrite
          (allWrites fetchS fetchM cfg.max_posts n₁ cfg.platforms) st0 k, hL]
      | none => rfl
    have h2 := applyWrites_eq_lastWrite
      (allWrites fetchS fetchM cfg.max_posts n₂ cfg.platforms)
      (applyWrites st0 (allWrites fetchS fetchM cfg.max_posts n₁
        cfg.platforms)) k
    rw [allWrites_lastWrite_time_indep fetchS fetchM cfg.max_posts n₂ n₁ k
      hk] at h2
    rw [h2]
    exact hmain
  exact ⟨fun pid => key (CKey.post pid) (fun ck h => CKey.noConfusion h),
    fun ck => key (CKey.postIds ck) (fun ck' h => CKey.noConfusion h)⟩

/-- A write list that never touches `k` leaves no last write at `k`. -/
theorem lastWrite_eq_none (ws : List (CKey × CVal)) (k : CKey)
    (h : ∀ kv ∈ ws, ¬ kv.1 = k) : lastWrite ws k = none := by
  unfold lastWrite
  have hf : ws.reverse.find? (fun kv => decide (kv.1 = k)) = none := by
    rw [List.find?_eq_none]
    intro kv hkv
    simp only [decide_eq_true_eq]
    exact h kv (List.mem_reverse.mp hkv)
  rw [hf]
  rfl

/-- C1 (amended): with two configured Substack sources A and B (distinct
display names, distinct cache keys), a forced `get_all_content` behaves as
follows.  (1) If A's adapter call raises into `get_all_content`'s `try`
while B's succeeds, A's `last_fetch_time` and member-id list are untouched,
A's results entry is its cached snapshot when that snapshot is non-empty
(and absent otherwise), and B's fresh articles are returned unaffected.
(2) However, a network or parse error inside `fetch_substack_posts` does
not raise: the fetcher swallows it and returns `[]`.  (3) `get_all_content`
treats that `[]` as a successful fetch: A's `last_fetch_time` is set to
`now`, A's member-id list is replaced by the empty list, and A's results
entry is `[]` — the stored snapshot is not served. -/
theorem getAllContent_adapter_failure (digest : String → String)
    (embed : String → Vec)
    (fetchM : String → ℕ → String → Except Unit (List Post))
    (A B : PlatformCfg) (mp : ℕ) (dur : ℚ) (spc : ℤ) (now : ℚ)
    (st0 : PostsCache) (emb0 : EmbCache) (posts : List Post)
    (htA : A.type = "substack") (htB : B.type = "substack")
    (hnames : ¬ A.effName = B.effName)
    (hkeys : ¬ cacheKeyOf A = cacheKeyOf B) :
    (∀ fetchS : String → ℕ → String → Except Unit (List Post),
      fetchS A.url mp A.effName = Except.error () →
      fetchS B.url mp B.effName = Except.ok posts →
      ((getAllContent digest embed fetchS fetchM ⟨[A, B], mp, dur, spc⟩ now
          true st0 emb0).store (CKey.lastFetch (cacheKeyOf A))
          = st0 (CKey.lastFetch (cacheKeyOf A))
      ∧ (getAllContent digest embed fetchS fetchM ⟨[A, B], mp, dur, spc⟩ now
          true st0 emb0).store (CKey.postIds (cacheKeyOf A))
          = st0 (CKey.postIds (cacheKeyOf A))
      ∧ alookup (getAllContent digest embed fetchS fetchM
          ⟨[A, B], mp, dur, spc⟩ now true st0 emb0).results A.effName
          = (if loadCachedPosts digest st0 (cacheKeyOf A) = [] then none
             else some (loadCachedPosts digest st0 (cacheKeyOf A)))
      ∧ alookup (getAllContent digest embed fetchS fetchM
          ⟨[A, B], mp, dur, spc⟩ now true st0 emb0).results B.effName
          = some posts))
    ∧ (∀ (γ : Type) (convert : γ → Option Post) (maxP : ℕ),
        fetchSubstackPosts convert (Except.error ()) maxP = [])
    ∧ (∀ fetchS : String → ℕ → String → Except Unit (List Post),
        fetchS A.url mp A.effName = Except.ok [] →
        fetchS B.url mp B.effName = Except.ok posts →
        ((getAllContent digest embed fetchS fetchM ⟨[A, B], mp, dur, spc⟩ now
            true st0 emb0).store (CKey.lastFetch (cacheKeyOf A))
            = some (CVal.time now)
        ∧ (getAllContent digest embed fetchS fetchM ⟨[A, B], mp, dur, spc⟩
            now true st0 emb0).store (CKey.postIds (cacheKeyOf A))
            = some (CVal.ids [])
        ∧ alookup (getAllContent digest embed fetchS fetchM
            ⟨[A, B], mp, dur, spc⟩ now true st0 emb0).results A.effName
            = some [])) := by
  have hBkeys : ∀ (fetchS : String → ℕ → String → Except Unit (List Post)),
      fetchS B.url mp B.effName = Except.ok posts →
      ∀ kv ∈ storeWrites fetchS fetchM mp now B,
        (¬ kv.1 = CKey.lastFetch (cacheKeyOf A))
        ∧ (¬ kv.1 = CKey.postIds (cacheKeyOf A)) := by
    intro fetchS hoB kv hkv
    rw [storeWrites, if_pos htB, hoB] at hkv
    rcases List.mem_append.mp hkv with h | h
    · rcases List.mem_map.mp h with ⟨po, _, rfl⟩
      exact ⟨fun h => CKey.noConfusion h, fun h => CKey.noConfusion h⟩
    · rcases List.mem_cons.mp h with rfl | h
      · refine ⟨fun h => CKey.noConfusion h, fun h => ?_⟩
        injection h with h2
        exact hkeys h2.symm
      · rcases List.mem_singleton.mp h with rfl
        refine ⟨fun h => ?_, fun h => CKey.noConfusion h⟩
        injection h with h2
        exact hkeys h2.symm
  refine ⟨?_, ?_, ?_⟩
  · intro fetchS hoA hoB
    have hwsA : storeWrites fetchS fetchM mp now A = [] := by
      rw [storeWrites, if_pos htA, hoA]
    have hall : allWrites fetchS fetchM mp now [A, B]
        = storeWrites fetchS fetchM mp now B := by
      show storeWrites fetchS fetchM mp now A
          ++ (storeWrites fetchS fetchM mp now B ++ []) = _
      rw [hwsA]
      simp
    have hstore : ∀ k : CKey,
        (∀ kv ∈ storeWrites fetchS fetchM mp now B, ¬ kv.1 = k) →
        (getAllContent digest embed fetchS fetchM ⟨[A, B], mp, dur, spc⟩ now
          true st0 emb0).store k = st0 k := by
      intro k hkv
      rw [getAllContent_store_refresh_true]
      show applyWrites st0 (allWrites fetchS fetchM mp now [A, B]) k = st0 k
      rw [hall, applyWrites_eq_lastWrite, lastWrite_eq_none _ _ hkv]
    have hresults : (getAllContent digest embed fetchS fetchM
        ⟨[A, B], mp, dur, spc⟩ now true st0 emb0).results
        = (processPlatform digest fetchS fetchM mp now
            (processPlatform digest fetchS fetchM mp now
              { store := st0, results := [], newPosts := [], calls := [] } A)
            B).results := by
      simp only [getAllContent, duePartition_refresh_true, List.foldl_cons,
        List.foldl_nil]
    have hAstep : processPlatform digest fetchS fetchM mp now
        { store := st0, results := [], newPosts := [], calls := [] } A
        = { store := st0,
            results := if loadCachedPosts digest st0 (cacheKeyOf A) = []
              then [] else dictInsert [] A.effName
                (loadCachedPosts digest st0 (cacheKeyOf A)),
            newPosts := [], calls := [(A.type, A.url)] } := by
      rw [processPlatform, if_pos htA, hoA]
      rfl
    have hBstep : ∀ s : FetchSt,
        (processPlatform digest fetchS fetchM mp now s B).results
          = dictInsert s.results B.effName posts := by
      intro s
      rw [processPlatform, if_pos htB, hoB]
      rfl
    refine ⟨hstore _ (fun kv hkv => (hBkeys fetchS hoB kv hkv).1),
      hstore _ (fun kv hkv => (hBkeys fetchS hoB kv hkv).2), ?_, ?_⟩
    · rw [hresults, hBstep,
        alookup_dictInsert_ne _ _ _ _ (fun h => hnames h.symm), hAstep]
      by_cases hc : loadCachedPosts digest st0 (cacheKeyOf A) = []
      · rw [if_pos hc, if_pos hc]
        rfl
      · rw [if_neg hc, if_neg hc]
        exact alookup_dictInsert_self [] A.effName
          (loadCachedPosts digest st0 (cacheKeyOf A))
    · rw [hresults, hBstep]
      exact alookup_dictInsert_self _ _ _
  · intro γ convert maxP
    rfl
  · intro fetchS hoA hoB
    have hwsA : storeWrites fetchS fetchM mp now A
        = [(CKey.postIds (cacheKeyOf A), CVal.ids []),
           (CKey.lastFetch (cacheKeyOf A), CVal.time now)] := by
      rw [storeWrites, if_pos htA, hoA]
      rfl
    have hall : allWrites fetchS fetchM mp now [A, B]
        = storeWrites fetchS fetchM mp now A
          ++ storeWrites fetchS fetchM mp now B := by
      show storeWrites fetchS fetchM mp now A
          ++ (storeWrites fetchS fetchM mp now B ++ []) = _
      simp
    have hstore : ∀ (k : CKey) (v : CVal),
        (∀ kv ∈ storeWrites fetchS fetchM mp now B, ¬ kv.1 = k) →
        lastWrite (storeWrites fetchS fetchM mp now A) k = some v →
        (getAllContent digest embed fetchS fetchM ⟨[A, B], mp, dur, spc⟩ now
          true st0 emb0).store k = some v := by
      intro k v hkv hlast
      rw [getAllContent_store_refresh_true]
      show applyWrites st0 (allWrites fetchS fetchM mp now [A, B]) k = some v
      rw [hall, applyWrites_eq_lastWrite, lastWrite_append,
        lastWrite_eq_none _ _ hkv, hlast]
    have hresults : (getAllContent digest embed fetchS fetchM
        ⟨[A, B], mp, dur, spc⟩ now true st0 emb0).results
        = (processPlatform digest fetchS fetchM mp now
            (processPlatform digest fetchS fetchM mp now
              { store := st0, results := [], newPosts := [], calls := [] } A)
            B).results := by
      simp only [getAllContent, duePartition_refresh_true, List.foldl_cons,
        List.foldl_nil]
    have hBstep : ∀ s : FetchSt,
        (processPlatform digest fetchS fetchM mp now s B).results
          = dictInsert s.results B.effName posts := by
      intro s
      rw [processPlatform, if_pos htB, hoB]
      rfl
    have hAres : (processPlatform digest fetchS fetchM mp now
        { store := st0, results := [], newPosts := [], calls := [] }
        A).results = dictInsert [] A.effName [] := by
      rw [processPlatform, if_pos htA, hoA]
      rfl
    refine ⟨?_, ?_, ?_⟩
    · refine hstore _ _ (fun kv hkv => (hBkeys fetchS hoB kv hkv).1) ?_
      rw [hwsA]
      simp [lastWrite, List.find?_cons]
    · refine hstore _ _ (fun kv hkv => (hBkeys fetchS hoB kv hkv).2) ?_
      rw [hwsA]
      have h1 : ¬ CKey.lastFetch (cacheKeyOf A) = CKey.postIds (cacheKeyOf A) :=
        fun h => CKey.noConfusion h
      simp [lastWrite, List.find?_cons, h1]
    · rw [hresults, hBstep,
        alookup_dictInsert_ne _ _ _ _ (fun h => hnames h.symm), hAres]
      exact alookup_dictInsert_self _ _ _

/-- C1 counterexample: a configured Substack source whose feed fetch hits a
network error (`Except.error` inside `fetch_substack_posts`), with a
non-empty stored snapshot.  The claim says `get_all_content` serves the
snapshot, leaves `last_fetch_time` alone and keeps the member-id list; the
code instead receives `[]` from the fetcher (which swallowed the error),
returns `[]` for the source, sets `last_fetch_time = now` and replaces the
member-id list with the empty list. -/
theorem getAllContent_network_error_counterexample :
    loadCachedPosts id
      (fun k => if k = CKey.postIds "substack:ua"
        then some (CVal.ids ["x"])
        else if k = CKey.post "x"
          then some (CVal.dict (Post.toDict samplePostA)) else none)
      "substack:ua" ≠ []
    ∧ fetchSubstackPosts (fun _ : Unit => none) (Except.error ()) 100 = []
    ∧ alookup (getAllContent id (fun _ => [])
        (fun _ _ _ => Except.ok
          (fetchSubstackPosts (fun _ : Unit => none) (Except.error ()) 100))
        (fun _ _ _ => Except.ok [])
        ⟨[⟨"substack", "ua", some "na"⟩], 100, 10, 10⟩ 7 true
        (fun k => if k = CKey.postIds "substack:ua"
          then some (CVal.ids ["x"])
          else if k = CKey.post "x"
            then some (CVal.dict (Post.toDict samplePostA)) else none)
        (fun _ => none)).results "na" = some []
    ∧ (getAllContent id (fun _ => [])
        (fun _ _ _ => Except.ok
          (fetchSubstackPosts (fun _ : Unit => none) (Except.error ()) 100))
        (fun _ _ _ => Except.ok [])
        ⟨[⟨"substack", "ua", some "na"⟩], 100, 10, 10⟩ 7 true
        (fun k => if k = CKey.postIds "substack:ua"
          then some (CVal.ids ["x"])
          else if k = CKey.post "x"
            then some (CVal.dict (Post.toDict samplePostA)) else none)
        (fun _ => none)).store (CKey.lastFetch "substack:ua")
      = some (CVal.time 7)
    ∧ (getAllContent id (fun _ => [])
        (fun _ _ _ => Except.ok
          (fetchSubstackPosts (fun _ : Unit => none) (Except.error ()) 100))
        (fun _ _ _ => Except.ok [])
        ⟨[⟨"substack", "ua", some "na"⟩], 100, 10, 10⟩ 7 true
        (fun k => if k = CKey.postIds "substack:ua"
          then some (CVal.ids ["x"])
          else if k = CKey.post "x"
            then some (CVal.dict (Post.toDict samplePostA)) else none)
        (fun _ => none)).store (CKey.postIds "substack:ua")
      = some (CVal.ids []) := by
  refine ⟨?_, rfl, ?_, ?_, ?_⟩
  · simp [loadCachedPosts, readIds, readPostDict]
  · simp [getAllContent, duePartition_refresh_true, List.foldl_cons,
      List.foldl_nil, processPlatform, applyOutcome, fetchSubstackPosts,
      dictInsert, alookup, List.find?_cons, PlatformCfg.effName]
  · rw [getAllContent_store_refresh_true]
    simp [allWrites, storeWrites, fetchSubstackPosts, applyWrites,
      PostsCache.set, cacheKeyOf, PlatformCfg.effName]
  · rw [getAllContent_store_refresh_true]
    simp [allWrites, storeWrites, fetchSubstackPosts, applyWrites,
      PostsCache.set, cacheKeyOf, PlatformCfg.effName]

/-- Concrete instances of the adapter-failure theorem: B's fresh articles
survive A's raising adapter, and a swallowed network error (empty list)
overwrites A's fetch time. -/
theorem getAllContent_adapter_failure_witness :
    alookup (getAllContent id (fun _ => [])
        (fun url _ _ => if url = "ua" then Except.error ()
          else Except.ok [samplePostB])
        (fun _ _ _ => Except.ok [])
        ⟨[⟨"substack", "ua", some "na"⟩, ⟨"substack", "ub", some "nb"⟩],
          100, 10, 10⟩ 7 true (fun _ => none) (fun _ => none)).results
        (PlatformCfg.effName ⟨"substack", "ub", some "nb"⟩)
      = some [samplePostB]
    ∧ (getAllContent id (fun _ => [])
        (fun url _ _ => if url = "ua" then Except.ok []
          else Except.ok [samplePostB])
        (fun _ _ _ => Except.ok [])
        ⟨[⟨"substack", "ua", some "na"⟩, ⟨"substack", "ub", some "nb"⟩],
          100, 10, 10⟩ 7 true (fun _ => none) (fun _ => none)).store
        (CKey.lastFetch (cacheKeyOf ⟨"substack", "ua", some "na"⟩))
      = some (CVal.time 7) := by
  constructor
  · exact ((getAllContent_adapter_failure id (fun _ => [])
      (fun _ _ _ => Except.ok []) ⟨"substack", "ua", some "na"⟩
      ⟨"substack", "ub", some "nb"⟩ 100 10 10 7 (fun _ => none)
      (fun _ => none) [samplePostB] rfl rfl (by decide) (by decide)).1
      (fun url _ _ => if url = "ua" then Except.error ()
        else Except.ok [samplePostB]) rfl rfl).2.2.2
  · exact ((getAllContent_adapter_failure id (fun _ => [])
      (fun _ _ _ => Except.ok []) ⟨"substack", "ua", some "na"⟩
      ⟨"substack", "ub", some "nb"⟩ 100 10 10 7 (fun _ => none)
      (fun _ => none) [samplePostB] rfl rfl (by decide) (by decide)).2.2
      (fun url _ _ => if url = "ua" then Except.ok []
        else Except.ok [samplePostB]) rfl rfl).1

/-- C7 (amended): a configured source whose type is neither `substack` nor
`medium`, paired with a healthy supported source B.  When the unknown-type
source is due (here: forced refresh) it is skipped entirely by the
`continue` of line 327 — no results entry at all (even if a cached snapshot
exists), no store dereference, and no `last_fetch_time` update — while B is
processed normally.  When it is not due, the type is never examined: the
first loop serves it from the store like any other not-due source. -/
theorem getAllContent_unknown_type (digest : String → String)
    (embed : String → Vec)
    (fetchS fetchM : String → ℕ → String → Except Unit (List Post))
    (U B : PlatformCfg) (mp : ℕ) (dur : ℚ) (spc : ℤ) (now : ℚ)
    (st0 : PostsCache) (emb0 : EmbCache) (posts : List Post)
    (htU1 : ¬ U.type = "substack") (htU2 : ¬ U.type = "medium")
    (htB : B.type = "substack")
    (hnames : ¬ U.effName = B.effName)
    (hkeys : ¬ cacheKeyOf U = cacheKeyOf B)
    (hoB : fetchS B.url mp B.effName = Except.ok posts) :
    (alookup (getAllContent digest embed fetchS fetchM ⟨[U, B], mp, dur, spc⟩
        now true st0 emb0).results U.effName = none
    ∧ (getAllContent digest embed fetchS fetchM ⟨[U, B], mp, dur, spc⟩ now
        true st0 emb0).store (CKey.lastFetch (cacheKeyOf U))
        = st0 (CKey.lastFetch (cacheKeyOf U))
    ∧ (getAllContent digest embed fetchS fetchM ⟨[U, B], mp, dur, spc⟩ now
        true st0 emb0).store (CKey.postIds (cacheKeyOf U))
        = st0 (CKey.postIds (cacheKeyOf U))
    ∧ alookup (getAllContent digest embed fetchS fetchM ⟨[U, B], mp, dur, spc⟩
        now true st0 emb0).results B.effName = some posts)
    ∧ (isDue false now dur st0 (cacheKeyOf U) = false →
        alookup (getAllContent digest embed fetchS fetchM
          ⟨[U, B], mp, dur, spc⟩ now false st0 emb0).results U.effName
          = some (loadCachedPosts digest st0 (cacheKeyOf U))) := by
  have hBkeys : ∀ kv ∈ storeWrites fetchS fetchM mp now B,
      (¬ kv.1 = CKey.lastFetch (cacheKeyOf U))
      ∧ (¬ kv.1 = CKey.postIds (cacheKeyOf U)) := by
    intro kv hkv
    rw [storeWrites, if_pos htB, hoB] at hkv
    rcases List.mem_append.mp hkv with h | h
    · rcases List.mem_map.mp h with ⟨po, _, rfl⟩
      exact ⟨fun h => CKey.noConfusion h, fun h => CKey.noConfusion h⟩
    · rcases List.mem_cons.mp h with rfl | h
      · refine ⟨fun h => CKey.noConfusion h, fun h => ?_⟩
        injection h with h2
        exact hkeys h2.symm
      · rcases List.mem_singleton.mp h with rfl
        refine ⟨fun h => ?_, fun h => CKey.noConfusion h⟩
        injection h with h2
        exact hkeys h2.symm
  have hUstep : ∀ s : FetchSt,
      processPlatform digest fetchS fetchM mp now s U = s := by
    intro s
    rw [processPlatform, if_neg htU1, if_neg htU2]
  have hBstep : ∀ s : FetchSt,
      (processPlatform digest fetchS fetchM mp now s B).results
        = dictInsert s.results B.effName posts := by
    intro s
    rw [processPlatform, if_pos htB, hoB]
    rfl
  have hresults : (getAllContent digest embed fetchS fetchM
      ⟨[U, B], mp, dur, spc⟩ now true st0 emb0).results
      = (processPlatform digest fetchS fetchM mp now
          (processPlatform digest fetchS fetchM mp now
            { store := st0, results := [], newPosts := [], calls := [] } U)
          B).results := by
    simp only [getAllContent, duePartition_refresh_true, List.foldl_cons,
      List.foldl_nil]
  constructor
  · refine ⟨?_, ?_, ?_, ?_⟩
    · rw [hresults, hUstep, hBstep,
        alookup_dictInsert_ne _ _ _ _ (fun h => hnames h.symm)]
      rfl
    · rw [getAllContent_store_refresh_true]
      show applyWrites st0
        (allWrites fetchS fetchM mp now [U, B]) (CKey.lastFetch (cacheKeyOf U))
        = _
      have hwsU : storeWrites fetchS fetchM mp now U = [] := by
        rw [storeWrites, if_neg htU1, if_neg htU2]
      have hall : allWrites fetchS fetchM mp now [U, B]
          = storeWrites fetchS fetchM mp now B := by
        show storeWrites fetchS fetchM mp now U
            ++ (storeWrites fetchS fetchM mp now B ++ []) = _
        rw [hwsU]
        simp
      rw [hall, applyWrites_eq_lastWrite,
        lastWrite_eq_none _ _ (fun kv hkv => (hBkeys kv hkv).1)]
    · rw [getAllContent_store_refresh_true]
      show applyWrites st0
        (allWrites fetchS fetchM mp now [U, B]) (CKey.postIds (cacheKeyOf U))
        = _
      have hwsU : storeWrites fetchS fetchM mp now U = [] := by
        rw [storeWrites, if_neg htU1, if_neg htU2]
      have hall : allWrites fetchS fetchM mp now [U, B]
          = storeWrites fetchS fetchM mp now B := by
        show storeWrites fetchS fetchM mp now U
            ++ (storeWrites fetchS fetchM mp now B ++ []) = _
        rw [hwsU]
        simp
      rw [hall, applyWrites_eq_lastWrite,
        lastWrite_eq_none _ _ (fun kv hkv => (hBkeys kv hkv).2)]
    · rw [hresults, hUstep, hBstep]
      exact alookup_dictInsert_self _ _ _
  · intro hnotdue
    have hres : (getAllContent digest embed fetchS fetchM
        ⟨[U, B], mp, dur, spc⟩ now false st0 emb0).results
        = ((duePartition digest ⟨[U, B], mp, dur, spc⟩ now false st0).1.foldl
            (processPlatform digest fetchS fetchM mp now)
            { store := st0,
              results := (duePartition digest ⟨[U, B], mp, dur, spc⟩ now
                false st0).2,
              newPosts := [], calls := [] }).results := by
      simp only [getAllContent]
    rw [hres, processPlatform_results_fold_ne]
    · show alookup (duePartition digest ⟨[U, B], mp, dur, spc⟩ now false
        st0).2 U.effName = _
      unfold duePartition
      refine duePartition_snd_lookup digest dur now false st0 [U, B] ([], [])
        U (List.mem_cons_self U [B]) hnotdue ?_ rfl
      simp [hnames]
    · intro q hq he
      rw [duePartition_fst] at hq
      rcases List.mem_filter.mp hq with ⟨hqmem, hqdue⟩
      rcases List.mem_cons.mp hqmem with rfl | hqmem2
      · rw [hnotdue] at hqdue
        exact Bool.false_ne_true hqdue
      · rcases List.mem_singleton.mp hqmem2 with rfl
        exact hnames he.symm

/-- C7 counterexample: a due source of unknown type `"weird"` with a
non-empty stored snapshot.  The claim says `get_all_content` falls back to
the stored member-id-list dereference for it; the code's `continue` skips
the source entirely and its name is absent from the returned mapping. -/
theorem getAllContent_unknown_type_counterexample :
    loadCachedPosts id
      (fun k => if k = CKey.postIds "weird:uu"
        then some (CVal.ids ["x"])
        else if k = CKey.post "x"
          then some (CVal.dict (Post.toDict samplePostA)) else none)
      "weird:uu" ≠ []
    ∧ alookup (getAllContent id (fun _ => []) (fun _ _ _ => Except.ok [])
        (fun _ _ _ => Except.ok [])
        ⟨[⟨"weird", "uu", some "nu"⟩], 100, 10, 10⟩ 7 true
        (fun k => if k = CKey.postIds "weird:uu"
          then some (CVal.ids ["x"])
          else if k = CKey.post "x"
            then some (CVal.dict (Post.toDict samplePostA)) else none)
        (fun _ => none)).results "nu" = none := by
  constructor
  · simp [loadCachedPosts, readIds, readPostDict]
  · simp [getAllContent, duePartition_refresh_true, List.foldl_cons,
      List.foldl_nil, processPlatform, alookup]

/-- Concrete instances of the unknown-type theorem: the due `"weird"`
source gets no results entry while its healthy companion is served fresh,
and the not-due `"weird"` source is served from the store. -/
theorem getAllContent_unknown_type_witness :
    alookup (getAllContent id (fun _ => [])
        (fun _ _ _ => Except.ok [samplePostB]) (fun _ _ _ => Except.ok [])
        ⟨[⟨"weird", "uu", some "nu"⟩, ⟨"substack", "ub", some "nb"⟩],
          100, 10, 10⟩ 6 true (fun _ => none) (fun _ => none)).results
        (PlatformCfg.effName ⟨"weird", "uu", some "nu"⟩) = none
    ∧ alookup (getAllContent id (fun _ => [])
        (fun _ _ _ => Except.ok [samplePostB]) (fun _ _ _ => Except.ok [])
        ⟨[⟨"weird", "uu", some "nu"⟩, ⟨"substack", "ub", some "nb"⟩],
          100, 10, 10⟩ 6 false
        (fun k => if k = CKey.lastFetch "weird:uu"
          then some (CVal.time 5) else none)
        (fun _ => none)).results (PlatformCfg.effName ⟨"weird", "uu", some "nu"⟩)
      = some (loadCachedPosts id
          (fun k => if k = CKey.lastFetch "weird:uu"
            then some (CVal.time 5) else none)
          (cacheKeyOf ⟨"weird", "uu", some "nu"⟩)) := by
  constructor
  · exact (getAllContent_unknown_type id (fun _ => [])
      (fun _ _ _ => Except.ok [samplePostB]) (fun _ _ _ => Except.ok [])
      ⟨"weird", "uu", some "nu"⟩ ⟨"substack", "ub", some "nb"⟩ 100 10 10 6
      (fun _ => none) (fun _ => none) [samplePostB] (by decide) (by decide)
      rfl (by decide) (by decide) rfl).1.1
  · exact (getAllContent_unknown_type id (fun _ => [])
      (fun _ _ _ => Except.ok [samplePostB]) (fun _ _ _ => Except.ok [])
      ⟨"weird", "uu", some "nu"⟩ ⟨"substack", "ub", some "nb"⟩ 100 10 10 6
      (fun k => if k = CKey.lastFetch "weird:uu"
        then some (CVal.time 5) else none)
      (fun _ => none) [samplePostB] (by decide) (by decide)
      rfl (by decide) (by decide) rfl).2
      (by
        have hck : ("weird" ++ ":" ++ "uu" : String) = "weird:uu" := rfl
        norm_num [isDue, readTime, cacheKeyOf, hck,
          decide_eq_false_iff_not])

/-! ## The ISO-8601 date layer

`Post.to_dict` serializes `date` with `datetime.isoformat` and
`Post.from_dict` recovers it with `datetime.fromisoformat`.  The `PostDict`
model above stores the datetime's components directly; this section
substantiates that convention: `isoformat` renders the exact string
`datetime.isoformat` produces for a `PyDateTime` (zero-padded fields,
microseconds omitted when zero, `±HH:MM` offset), `fromIsoString` parses it
back, and `fromIsoString_isoformat` proves the round-trip recovers every
component — under the bounds Python's `datetime` guarantees (year at most
9999, two-digit calendar/clock fields, microseconds below 10^6, offset
magnitude below 24 hours).  The serialized date string therefore carries
precisely the information `PyDateTime` holds, as the `PostDict` model
assumes. -/

def digitChar (d : ℕ) : Char :=
  match d with
  | 0 => '0' | 1 => '1' | 2 => '2' | 3 => '3' | 4 => '4'
  | 5 => '5' | 6 => '6' | 7 => '7' | 8 => '8' | 9 => '9'
  | _ => '*'

def digitVal (c : Char) : Option ℕ :=
  if c = '0' then some 0 else if c = '1' then some 1
  else if c = '2' then some 2 else if c = '3' then some 3
  else if c = '4' then some 4 else if c = '5' then some 5
  else if c = '6' then some 6 else if c = '7' then some 7
  else if c = '8' then some 8 else if c = '9' then some 9
  else none

theorem digitVal_digitChar (d : ℕ) (h : d < 10) :
    digitVal (digitChar d) = some d := by
  interval_cases d <;> rfl

def pad2 (n : ℕ) : List Char := [digitChar (n / 10), digitChar (n % 10)]

def pad4 (n : ℕ) : List Char := pad2 (n / 100) ++ pad2 (n % 100)

def pad6 (n : ℕ) : List Char :=
  pad2 (n / 10000) ++ pad2 (n / 100 % 100) ++ pad2 (n % 100)

def isoOffsetChars (o : Option ℤ) : List Char :=
  match o with
  | none => []
  | some off =>
      (if off < 0 then '-' else '+')
        :: (pad2 (off.natAbs / 60) ++ ':' :: pad2 (off.natAbs % 60))

def isoChars (dt : PyDateTime) : List Char :=
  pad4 dt.year ++ '-' :: (pad2 dt.month ++ '-' :: (pad2 dt.day
    ++ 'T' :: (pad2 dt.hour ++ ':' :: (pad2 dt.minute ++ ':' :: (pad2 dt.second
    ++ ((if dt.microsecond = 0 then [] else '.' :: pad6 dt.microsecond)
        ++ isoOffsetChars dt.utcOffsetMinutes))))))

def isoformat (dt : PyDateTime) : String := String.mk (isoChars dt)

def expectChar (c : Char) : List Char → Option (List Char)
  | x :: rest => if x = c then some rest else none
  | [] => none

def parse2 : List Char → Option (ℕ × List Char)
  | a :: b :: rest => do
      let x ← digitVal a
      let y ← digitVal b
      some (x * 10 + y, rest)
  | _ => none

def parse4 (cs : List Char) : Option (ℕ × List Char) := do
  let (hi, r₁) ← parse2 cs
  let (lo, r₂) ← parse2 r₁
  some (hi * 100 + lo, r₂)

def parseIsoFrac (cs : List Char) : Option (ℕ × List Char) :=
  match cs with
  | [] => some (0, [])
  | c :: rest =>
      if c = '.' then do
        let (a, r₁) ← parse2 rest
        let (b, r₂) ← parse2 r₁
        let (d, r₃) ← parse2 r₂
        some ((a * 100 + b) * 100 + d, r₃)
      else some (0, c :: rest)

def parseIsoOffset (cs : List Char) : Option (Option ℤ) :=
  match cs with
  | [] => some none
  | c :: rest =>
      if c = '+' then do
        let (h, r₁) ← parse2 rest
        let r₂ ← expectChar ':' r₁
        let (m, r₃) ← parse2 r₂
        if r₃ = [] then some (some ((h * 60 + m : ℕ) : ℤ)) else none
      else if c = '-' then do
        let (h, r₁) ← parse2 rest
        let r₂ ← expectChar ':' r₁
        let (m, r₃) ← parse2 r₂
        if r₃ = [] then some (some (-((h * 60 + m : ℕ) : ℤ))) else none
      else none

def parseIsoChars (cs : List Char) : Option PyDateTime := do
  let (y, r₁) ← parse4 cs
  let r₂ ← expectChar '-' r₁
  let (mo, r₃) ← parse2 r₂
  let r₄ ← expectChar '-' r₃
  let (d, r₅) ← parse2 r₄
  let r₆ ← expectChar 'T' r₅
  let (h, r₇) ← parse2 r₆
  let r₈ ← expectChar ':' r₇
  let (mi, r₉) ← parse2 r₈
  let r₁₀ ← expectChar ':' r₉
  let (s, r₁₁) ← parse2 r₁₀
  let (us, r₁₂) ← parseIsoFrac r₁₁
  let off ← parseIsoOffset r₁₂
  some ⟨y, mo, d, h, mi, s, us, off⟩

def fromIsoString (s : String) : Option PyDateTime := parseIsoChars s.data

theorem expectChar_cons (c : Char) (rest : List Char) :
    expectChar c (c :: rest) = some rest := by
  simp [expectChar]

theorem parse2_pad2 (n : ℕ) (h : n < 100) (rest : List Char) :
    parse2 (pad2 n ++ rest) = some (n, rest) := by
  have h1 : n / 10 < 10 := by omega
  have h2 : n % 10 < 10 := by omega
  have hn : n / 10 * 10 + n % 10 = n := by omega
  simp only [pad2, List.cons_append, List.nil_append, parse2,
    digitVal_digitChar _ h1, digitVal_digitChar _ h2, Option.bind_eq_bind,
    Option.some_bind, hn]

theorem parse4_pad4 (n : ℕ) (h : n < 10000) (rest : List Char) :
    parse4 (pad4 n ++ rest) = some (n, rest) := by
  have h1 : n / 100 < 100 := by omega
  have h2 : n % 100 < 100 := by omega
  have hn : n / 100 * 100 + n % 100 = n := by omega
  simp only [pad4, List.append_assoc, parse4, parse2_pad2 _ h1,
    Option.bind_eq_bind, Option.some_bind, parse2_pad2 _ h2, hn]

theorem parseIsoFrac_nil : parseIsoFrac [] = some (0, []) := rfl

theorem parseIsoFrac_cons_ne (c : Char) (rest : List Char) (h : ¬ c = '.') :
    parseIsoFrac (c :: rest) = some (0, c :: rest) := by
  simp only [parseIsoFrac, if_neg h]

theorem parseIsoFrac_dot (n : ℕ) (h : n < 1000000) (rest : List Char) :
    parseIsoFrac ('.' :: (pad6 n ++ rest)) = some (n, rest) := by
  have h1 : n / 10000 < 100 := by omega
  have h2 : n / 100 % 100 < 100 := by omega
  have h3 : n % 100 < 100 := by omega
  have hn : (n / 10000 * 100 + n / 100 % 100) * 100 + n % 100 = n := by omega
  simp only [parseIsoFrac, if_pos rfl, if_true, pad6, List.append_assoc,
    parse2_pad2 _ h1, Option.bind_eq_bind, Option.some_bind,
    parse2_pad2 _ h2, parse2_pad2 _ h3, hn]

theorem parseIsoOffset_some (off : ℤ) (habs : off.natAbs < 1440) :
    parseIsoOffset (isoOffsetChars (some off)) = some (some off) := by
  have h1 : off.natAbs / 60 < 100 := by omega
  have h2 : off.natAbs % 60 < 100 := by omega
  by_cases h0 : off < 0
  · have hfin : -((off.natAbs / 60 * 60 + off.natAbs % 60 : ℕ) : ℤ) = off := by
      omega
    have h2' : parse2 (pad2 (off.natAbs % 60))
        = some (off.natAbs % 60, []) := by
      have h3 := parse2_pad2 _ h2 ([] : List Char)
      rwa [List.append_nil] at h3
    simp only [isoOffsetChars, if_pos h0, parseIsoOffset,
      if_neg (by decide : ¬ ('-' : Char) = '+'), if_pos rfl, if_true,
      parse2_pad2 _ h1, Option.bind_eq_bind, Option.some_bind,
      expectChar_cons]
    rw [h2', Option.some_bind]
    simp only [if_pos rfl, if_true, hfin]
  · have hfin : ((off.natAbs / 60 * 60 + off.natAbs % 60 : ℕ) : ℤ) = off := by
      omega
    have h2' : parse2 (pad2 (off.natAbs % 60))
        = some (off.natAbs % 60, []) := by
      have h3 := parse2_pad2 _ h2 ([] : List Char)
      rwa [List.append_nil] at h3
    simp only [isoOffsetChars, if_neg h0, parseIsoOffset, if_pos rfl,
      if_true, parse2_pad2 _ h1, Option.bind_eq_bind, Option.some_bind,
      expectChar_cons]
    rw [h2', Option.some_bind]
    simp only [if_pos rfl, if_true, hfin]

theorem parseIsoOffset_isoOffsetChars (o : Option ℤ)
    (habs : ∀ off ∈ o, off.natAbs < 1440) :
    parseIsoOffset (isoOffsetChars o) = some o := by
  rcases o with _ | off
  · rfl
  · exact parseIsoOffset_some off (habs off rfl)

theorem parseIsoChars_build (y mo d h mi s : ℕ) (rest rest₂ : List Char)
    (us : ℕ) (off : Option ℤ)
    (hy : y < 10000) (hmo : mo < 100) (hd : d < 100) (hh : h < 100)
    (hmi : mi < 100) (hs : s < 100)
    (hfrac : parseIsoFrac rest = some (us, rest₂))
    (hoff : parseIsoOffset rest₂ = some off) :
    parseIsoChars
      (pad4 y ++ '-' :: (pad2 mo ++ '-' :: (pad2 d ++ 'T' :: (pad2 h
        ++ ':' :: (pad2 mi ++ ':' :: (pad2 s ++ rest))))))
      = some ⟨y, mo, d, h, mi, s, us, off⟩ := by
  simp only [parseIsoChars, parse4_pad4 _ hy, Option.bind_eq_bind,
    Option.some_bind, expectChar_cons, parse2_pad2 _ hmo, parse2_pad2 _ hd,
    parse2_pad2 _ hh, parse2_pad2 _ hmi, parse2_pad2 _ hs, hfrac, hoff]

theorem isoOffsetChars_head_ne_dot (o : Option ℤ) (c : Char)
    (rest : List Char) (h : isoOffsetChars o = c :: rest) : ¬ c = '.' := by
  rcases o with _ | off
  · exact absurd h (by simp [isoOffsetChars])
  · simp only [isoOffsetChars] at h
    injection h with h1 _
    by_cases h0 : off < 0
    · rw [if_pos h0] at h1
      rw [← h1]
      decide
    · rw [if_neg h0] at h1
      rw [← h1]
      decide

theorem fromIsoString_isoformat (dt : PyDateTime)
    (hy : dt.year < 10000) (hmo : dt.month < 100) (hd : dt.day < 100)
    (hh : dt.hour < 100) (hmi : dt.minute < 100) (hs : dt.second < 100)
    (hus : dt.microsecond < 1000000)
    (hoff : ∀ off ∈ dt.utcOffsetMinutes, off.natAbs < 1440) :
    fromIsoString (isoformat dt) = some dt := by
  obtain ⟨y, mo, d, h, mi, s, us, off⟩ := dt
  show parseIsoChars (isoChars ⟨y, mo, d, h, mi, s, us, off⟩) = _
  have hshape : isoChars ⟨y, mo, d, h, mi, s, us, off⟩
      = pad4 y ++ '-' :: (pad2 mo ++ '-' :: (pad2 d ++ 'T' :: (pad2 h
          ++ ':' :: (pad2 mi ++ ':' :: (pad2 s
          ++ ((if us = 0 then [] else '.' :: pad6 us)
              ++ isoOffsetChars off)))))) := rfl
  rw [hshape]
  have hoffp : parseIsoOffset (isoOffsetChars off) = some off :=
    parseIsoOffset_isoOffsetChars off hoff
  by_cases hus0 : us = 0
  · subst hus0
    have hfrac : parseIsoFrac ((if (0 : ℕ) = 0 then []
        else '.' :: pad6 0) ++ isoOffsetChars off)
        = some (0, isoOffsetChars off) := by
      rw [if_pos rfl, List.nil_append]
      rcases hoc : isoOffsetChars off with _ | ⟨c, rest⟩
      · exact parseIsoFrac_nil
      · exact parseIsoFrac_cons_ne c rest
          (isoOffsetChars_head_ne_dot off c rest hoc)
    exact parseIsoChars_build y mo d h mi s _ _ 0 off hy hmo hd hh hmi hs
      hfrac hoffp
  · have hfrac : parseIsoFrac ((if us = 0 then []
        else '.' :: pad6 us) ++ isoOffsetChars off)
        = some (us, isoOffsetChars off) := by
      rw [if_neg hus0, List.cons_append]
      exact parseIsoFrac_dot us hus _
    exact parseIsoChars_build y mo d h mi s _ _ us off hy hmo hd hh hmi hs
      hfrac hoffp
